import Mathlib

/-!
# MDX (Markdown eXtended Container) — verification of the reference implementation

A shallow embedding, in Lean 4, of the core of the MDX TypeScript reference
implementation (`mdx_format.ts`) and of the CLI validator
(`cli/src/commands/validate.js`), with theorems settling the behavioural
claims about path sanitisation, the manifest model, the asset store, version
history, annotations, the archive codec (`save`/`open`) and the validator.

Modelling conventions:

* JavaScript strings are Lean `String`s (sequences of Unicode scalar values);
  where byte payloads matter (`Uint8Array`), bytes are `List Nat`.
* `TextEncoder`/`TextDecoder` are modelled by an executable UTF-8
  encoder/decoder pair proved to round-trip.
* A JavaScript `Map` is an insertion-ordered association list
  (`List (String × α)`); `set` replaces in place or appends, `delete`
  removes the entry, mirroring `Map` semantics.
* Fields that the TypeScript type system marks required but that can be
  absent at runtime (after `JSON.parse` of an arbitrary manifest) are
  `Option`s; JavaScript falsiness of a string field (`undefined` or `""`)
  is the predicate `strFalsy`.
* Impure calls (`generateUUID()`, `isoTimestamp()`) are threaded as explicit
  arguments (`uuid`, `now`).
-/

/-! ## JavaScript `Map` model -/

/-- Lookup in a JavaScript `Map` / plain-object record (`map.get(k)`). -/
def jsMapGet {α : Type} (m : List (String × α)) (k : String) : Option α :=
  (m.find? (fun e => e.1 == k)).map (fun e => e.2)

/-- Key-membership in a JavaScript `Map` (`map.has(k)`). -/
def jsMapHas {α : Type} (m : List (String × α)) (k : String) : Bool :=
  (m.find? (fun e => e.1 == k)).isSome

/-- `map.set(k, v)`: replaces the entry for `k` in place if present,
otherwise appends a new entry at the end (insertion order). -/
def jsMapSet {α : Type} : List (String × α) → String → α → List (String × α)
  | [], k, v => [(k, v)]
  | e :: rest, k, v => if e.1 == k then (k, v) :: rest else e :: jsMapSet rest k v

/-- `map.delete(k)`: removes the entry for `k` (the first, and in a real
`Map` only, occurrence). -/
def jsMapDelete {α : Type} : List (String × α) → String → List (String × α)
  | [], _ => []
  | e :: rest, k => if e.1 == k then rest else e :: jsMapDelete rest k

theorem jsMapGet_delete_ne {α : Type} (m : List (String × α)) (k q : String) (h : q ≠ k) :
    jsMapGet (jsMapDelete m k) q = jsMapGet m q := by
  induction m with
  | nil => rfl
  | cons e rest ih =>
      rw [jsMapDelete]
      by_cases he : e.1 = k
      · rw [if_pos (by simp [he])]
        unfold jsMapGet
        rw [List.find?_cons_of_neg _ (by simp [he]; exact fun hh => h hh.symm)]
      · rw [if_neg (by simp [he])]
        by_cases heq : e.1 = q
        · unfold jsMapGet
          rw [List.find?_cons_of_pos _ (by simp [heq]), List.find?_cons_of_pos _ (by simp [heq])]
        · unfold jsMapGet at ih ⊢
          rw [List.find?_cons_of_neg _ (by simp [heq]), List.find?_cons_of_neg _ (by simp [heq])]
          exact ih

theorem jsMapGet_set_ne {α : Type} (m : List (String × α)) (k q : String) (v : α) (h : q ≠ k) :
    jsMapGet (jsMapSet m k v) q = jsMapGet m q := by
  induction m with
  | nil =>
      unfold jsMapSet jsMapGet
      rw [List.find?_cons_of_neg _ (by simp; exact fun hh => h hh.symm)]
  | cons e rest ih =>
      rw [jsMapSet]
      by_cases he : e.1 = k
      · rw [if_pos (by simp [he])]
        unfold jsMapGet
        rw [List.find?_cons_of_neg _ (by simp; exact fun hh => h hh.symm)]
        rw [List.find?_cons_of_neg _ (by simp [he]; exact fun hh => h hh.symm)]
      · rw [if_neg (by simp [he])]
        by_cases heq : e.1 = q
        · unfold jsMapGet
          rw [List.find?_cons_of_pos _ (by simp [heq]), List.find?_cons_of_pos _ (by simp [heq])]
        · unfold jsMapGet at ih ⊢
          rw [List.find?_cons_of_neg _ (by simp [heq]), List.find?_cons_of_neg _ (by simp [heq])]
          exact ih

theorem jsMapGet_set_self {α : Type} (m : List (String × α)) (k : String) (v : α) :
    jsMapGet (jsMapSet m k v) k = some v := by
  induction m with
  | nil => simp [jsMapSet, jsMapGet]
  | cons e rest ih =>
      rw [jsMapSet]
      by_cases he : e.1 = k
      · rw [if_pos (by simp [he])]
        unfold jsMapGet
        rw [List.find?_cons_of_pos _ (by simp)]
        rfl
      · rw [if_neg (by simp [he])]
        unfold jsMapGet at ih ⊢
        rw [List.find?_cons_of_neg _ (by simp [he])]
        exact ih

/-! ## UTF-8 codec (model of `TextEncoder` / `TextDecoder`) -/

/-- UTF-8 encoding of a single Unicode scalar value. -/
def utf8EncodeChar (c : Char) : List Nat :=
  let n := c.toNat
  if n < 128 then [n]
  else if n < 2048 then [192 + n / 64, 128 + n % 64]
  else if n < 65536 then [224 + n / 4096, 128 + n / 64 % 64, 128 + n % 64]
  else [240 + n / 262144, 128 + n / 4096 % 64, 128 + n / 64 % 64, 128 + n % 64]

/-- UTF-8 encoding of a character sequence (`new TextEncoder().encode(s)`). -/
def utf8Encode (s : List Char) : List Nat :=
  (s.map utf8EncodeChar).flatten

/-- Decodes one UTF-8 sequence: leading byte `b`, remaining bytes `bs`;
returns the decoded scalar and the leftover bytes. -/
def utf8DecodeStep (b : Nat) (bs : List Nat) : Char × List Nat :=
  if b < 128 then (Char.ofNat b, bs)
  else if b < 224 then
    match bs with
    | b1 :: bs1 => (Char.ofNat ((b - 192) * 64 + (b1 - 128)), bs1)
    | [] => (Char.ofNat 0, [])
  else if b < 240 then
    match bs with
    | b1 :: b2 :: bs2 => (Char.ofNat ((b - 224) * 4096 + (b1 - 128) * 64 + (b2 - 128)), bs2)
    | _ => (Char.ofNat 0, [])
  else
    match bs with
    | b1 :: b2 :: b3 :: bs3 =>
        (Char.ofNat ((b - 240) * 262144 + (b1 - 128) * 4096 + (b2 - 128) * 64 + (b3 - 128)), bs3)
    | _ => (Char.ofNat 0, [])

theorem utf8DecodeStep_length (b : Nat) (bs : List Nat) :
    (utf8DecodeStep b bs).2.length ≤ bs.length := by
  unfold utf8DecodeStep
  repeat' split
  all_goals simp_all
  all_goals omega

/-- UTF-8 decoding of a byte sequence (`new TextDecoder().decode(b)`). -/
def utf8Decode : List Nat → List Char
  | [] => []
  | b :: bs =>
    (utf8DecodeStep b bs).1 :: utf8Decode (utf8DecodeStep b bs).2
termination_by l => l.length
decreasing_by
  have := utf8DecodeStep_length b bs
  simp [List.length_cons]
  omega

theorem charOfNat_toNat (c : Char) : Char.ofNat c.toNat = c := by
  have h : c.toNat.isValidChar := c.valid
  unfold Char.ofNat
  rw [dif_pos h]
  apply Char.ext
  apply UInt32.ext
  simp [Char.ofNatAux, UInt32.toNat, Char.toNat]

theorem utf8Decode_nil : utf8Decode [] = [] := by
  rw [utf8Decode]

theorem utf8Decode_cons (b : Nat) (bs : List Nat) :
    utf8Decode (b :: bs) = (utf8DecodeStep b bs).1 :: utf8Decode (utf8DecodeStep b bs).2 := by
  rw [utf8Decode]

theorem utf8DecodeStep_encodeChar (c : Char) (rest : List Nat) :
    utf8DecodeStep (utf8EncodeChar c).head! ((utf8EncodeChar c).tail ++ rest) = (c, rest) := by
  have hval : c.toNat < 55296 ∨ 57343 < c.toNat ∧ c.toNat < 1114112 := c.valid
  unfold utf8EncodeChar
  by_cases h1 : c.toNat < 128
  · rw [if_pos h1]
    unfold utf8DecodeStep
    simp only [List.head!, List.tail, List.nil_append]
    rw [if_pos h1, charOfNat_toNat]
  · rw [if_neg h1]
    by_cases h2 : c.toNat < 2048
    · rw [if_pos h2]
      unfold utf8DecodeStep
      simp only [List.head!, List.tail, List.cons_append, List.nil_append]
      rw [if_neg (by omega), if_pos (by omega)]
      have harith : (192 + c.toNat / 64 - 192) * 64 + (128 + c.toNat % 64 - 128) = c.toNat := by
        omega
      rw [harith, charOfNat_toNat]
    · rw [if_neg h2]
      by_cases h3 : c.toNat < 65536
      · rw [if_pos h3]
        unfold utf8DecodeStep
        simp only [List.head!, List.tail, List.cons_append, List.nil_append]
        rw [if_neg (by omega), if_neg (by omega), if_pos (by omega)]
        have harith : (224 + c.toNat / 4096 - 224) * 4096 + (128 + c.toNat / 64 % 64 - 128) * 64
            + (128 + c.toNat % 64 - 128) = c.toNat := by
          omega
        rw [harith, charOfNat_toNat]
      · rw [if_neg h3]
        unfold utf8DecodeStep
        simp only [List.head!, List.tail, List.cons_append, List.nil_append]
        rw [if_neg (by omega), if_neg (by omega), if_neg (by omega)]
        have harith : (240 + c.toNat / 262144 - 240) * 262144
            + (128 + c.toNat / 4096 % 64 - 128) * 4096
            + (128 + c.toNat / 64 % 64 - 128) * 64 + (128 + c.toNat % 64 - 128) = c.toNat := by
          omega
        rw [harith, charOfNat_toNat]

theorem utf8EncodeChar_ne_nil (c : Char) : utf8EncodeChar c ≠ [] := by
  unfold utf8EncodeChar
  by_cases h1 : c.toNat < 128
  · simp [h1]
  · by_cases h2 : c.toNat < 2048 <;> by_cases h3 : c.toNat < 65536 <;> simp [h1, h2, h3]

theorem utf8Decode_encodeChar (c : Char) (rest : List Nat) :
    utf8Decode (utf8EncodeChar c ++ rest) = c :: utf8Decode rest := by
  have hne := utf8EncodeChar_ne_nil c
  have hstep := utf8DecodeStep_encodeChar c rest
  obtain ⟨b, bs, hcons⟩ : ∃ b bs, utf8EncodeChar c = b :: bs := by
    cases hc : utf8EncodeChar c with
    | nil => exact absurd hc hne
    | cons x xs => exact ⟨x, xs, rfl⟩
  rw [hcons] at hstep ⊢
  simp only [List.head!, List.tail] at hstep
  rw [List.cons_append, utf8Decode_cons, hstep]

/-- The decoder inverts the encoder: every Lean string (well-formed Unicode,
as JavaScript strings handed to `TextEncoder` are after lone-surrogate
replacement) round-trips through UTF-8. -/
theorem utf8Decode_encode (s : List Char) : utf8Decode (utf8Encode s) = s := by
  induction s with
  | nil => exact utf8Decode_nil
  | cons c cs ih =>
      show utf8Decode ((utf8EncodeChar c :: cs.map utf8EncodeChar).flatten) = c :: cs
      rw [List.flatten_cons, utf8Decode_encodeChar]
      exact congrArg (c :: ·) ih

/-! ## Checksum/Path utilities: `sanitizePath` -/

/-- Model of the regex replace of every backslash by a forward slash. -/
def replaceBackslash (l : List Char) : List Char :=
  l.map (fun ch => if ch = '\\' then '/' else ch)

/-- Model of the regex replace removing every leading slash. -/
def dropLeadingSlashes (l : List Char) : List Char :=
  l.dropWhile (fun ch => ch = '/')

/-- Model of `sanitized.split("/")`: JavaScript semantics, `n` separators give
`n + 1` segments, empty segments included. -/
def splitSlash : List Char → List (List Char)
  | [] => [[]]
  | c :: cs =>
    if c = '/' then [] :: splitSlash cs
    else
      match splitSlash cs with
      | s :: ss => (c :: s) :: ss
      | [] => [[c]]

/-- The filter in `sanitizePath`: keep a segment iff it is non-empty and
neither a parent (dot dot) nor a current-directory (dot) reference. -/
def keepSegment (p : List Char) : Bool :=
  !p.isEmpty && p ≠ ['.', '.'] && p ≠ ['.']

/-- Model of `parts.join("/")`. -/
def joinSlash : List (List Char) → List Char
  | [] => []
  | [p] => p
  | p :: q :: ps => p ++ '/' :: joinSlash (q :: ps)

/-- Character-level body of `sanitizePath`. -/
def sanitizeChars (l : List Char) : List Char :=
  joinSlash (((splitSlash (dropLeadingSlashes (replaceBackslash l))).filter keepSegment))

/-- Model of `sanitizePath` from the source: replace backslashes with slashes,
remove leading slashes, drop traversal and empty segments, re-join. -/
def sanitizePath (s : String) : String :=
  ⟨sanitizeChars s.data⟩

theorem splitSlash_ne_nil (l : List Char) : splitSlash l ≠ [] := by
  cases l with
  | nil => simp [splitSlash]
  | cons c cs =>
      rw [splitSlash]
      split
      · simp
      · split <;> simp

theorem mem_splitSlash_no_slash (l : List Char) :
    ∀ p ∈ splitSlash l, '/' ∉ p := by
  induction l with
  | nil => intro p hp; simp [splitSlash] at hp; simp [hp]
  | cons c cs ih =>
      intro p hp
      rw [splitSlash] at hp
      by_cases hc : c = '/'
      · rw [if_pos hc] at hp
        rcases List.mem_cons.mp hp with h | h
        · simp [h]
        · exact ih p h
      · rw [if_neg hc] at hp
        cases hsp : splitSlash cs with
        | nil => exact absurd hsp (splitSlash_ne_nil cs)
        | cons s ss =>
            rw [hsp] at hp
            rcases List.mem_cons.mp hp with h | h
            · subst h
              intro hmem
              rcases List.mem_cons.mp hmem with h' | h'
              · exact hc h'.symm
              · exact ih s (hsp ▸ List.mem_cons_self s ss) h'
            · exact ih p (hsp ▸ List.mem_cons.mpr (Or.inr h))

theorem mem_splitSlash_chars (l : List Char) :
    ∀ p ∈ splitSlash l, ∀ c ∈ p, c ∈ l := by
  induction l with
  | nil => intro p hp; simp [splitSlash] at hp; simp [hp]
  | cons a cs ih =>
      intro p hp c hc
      rw [splitSlash] at hp
      by_cases ha : a = '/'
      · rw [if_pos ha] at hp
        rcases List.mem_cons.mp hp with h | h
        · subst h; simp at hc
        · exact List.mem_cons.mpr (Or.inr (ih p h c hc))
      · rw [if_neg ha] at hp
        cases hsp : splitSlash cs with
        | nil => exact absurd hsp (splitSlash_ne_nil cs)
        | cons s ss =>
            rw [hsp] at hp
            rcases List.mem_cons.mp hp with h | h
            · subst h
              rcases List.mem_cons.mp hc with h' | h'
              · exact List.mem_cons.mpr (Or.inl h')
              · exact List.mem_cons.mpr
                  (Or.inr (ih s (hsp ▸ List.mem_cons_self s ss) c h'))
            · exact List.mem_cons.mpr
                (Or.inr (ih p (hsp ▸ List.mem_cons.mpr (Or.inr h)) c hc))

theorem splitSlash_no_slash_eq (p : List Char) (h : '/' ∉ p) :
    splitSlash p = [p] := by
  induction p with
  | nil => rfl
  | cons c cs ih =>
      have hc : c ≠ '/' := fun hh => h (hh ▸ List.mem_cons_self c cs)
      have hcs : '/' ∉ cs := fun hh => h (List.mem_cons.mpr (Or.inr hh))
      rw [splitSlash, if_neg hc, ih hcs]

theorem splitSlash_append (p rest : List Char) (h : '/' ∉ p) :
    splitSlash (p ++ '/' :: rest) = p :: splitSlash rest := by
  induction p with
  | nil => simp [splitSlash]
  | cons c cs ih =>
      have hc : c ≠ '/' := fun hh => h (hh ▸ List.mem_cons_self c cs)
      have hcs : '/' ∉ cs := fun hh => h (List.mem_cons.mpr (Or.inr hh))
      rw [List.cons_append, splitSlash, if_neg hc, ih hcs]

theorem splitSlash_joinSlash (ps : List (List Char)) (hne : ps ≠ [])
    (h : ∀ p ∈ ps, '/' ∉ p) : splitSlash (joinSlash ps) = ps := by
  induction ps with
  | nil => exact absurd rfl hne
  | cons p ps ih =>
      cases ps with
      | nil =>
          rw [joinSlash]
          exact splitSlash_no_slash_eq p (h p (List.mem_cons_self p []))
      | cons q qs =>
          rw [joinSlash, splitSlash_append p _ (h p (List.mem_cons_self p _))]
          rw [ih (by simp) (fun r hr => h r (List.mem_cons.mpr (Or.inr hr)))]

theorem mem_joinSlash (ps : List (List Char)) :
    ∀ c ∈ joinSlash ps, c = '/' ∨ ∃ p ∈ ps, c ∈ p := by
  induction ps with
  | nil => intro c hc; simp [joinSlash] at hc
  | cons p ps ih =>
      intro c hc
      cases ps with
      | nil =>
          rw [joinSlash] at hc
          exact Or.inr ⟨p, List.mem_cons_self p [], hc⟩
      | cons q qs =>
          rw [joinSlash] at hc
          rcases List.mem_append.mp hc with h | h
          · exact Or.inr ⟨p, List.mem_cons_self p _, h⟩
          · rcases List.mem_cons.mp h with h' | h'
            · exact Or.inl h'
            · rcases ih c h' with h'' | ⟨r, hr, hcr⟩
              · exact Or.inl h''
              · exact Or.inr ⟨r, List.mem_cons.mpr (Or.inr hr), hcr⟩

/-- Any segment list that can come out of the filter step is a fixed point of
the whole sanitisation pipeline once re-joined. -/
theorem sanitizeChars_joinSlash (ps : List (List Char))
    (hmem : ∀ p ∈ ps, keepSegment p = true)
    (hnos : ∀ p ∈ ps, '/' ∉ p)
    (hnob : ∀ p ∈ ps, '\\' ∉ p) :
    sanitizeChars (joinSlash ps) = joinSlash ps := by
  have hout_nobs : ∀ c ∈ joinSlash ps, c ≠ '\\' := by
    intro c hc hbs
    rcases mem_joinSlash ps c hc with h | ⟨r, hr, hcr⟩
    · exact absurd (hbs ▸ h) (by decide)
    · exact hnob r hr (hbs ▸ hcr)
  have hrb : replaceBackslash (joinSlash ps) = joinSlash ps := by
    unfold replaceBackslash
    rw [List.map_congr_left (fun c hc => if_neg (hout_nobs c hc)), List.map_id']
  cases ps with
  | nil => rfl
  | cons p rest =>
      have hpkeep : keepSegment p = true := hmem p (List.mem_cons_self p rest)
      obtain ⟨c, p', rfl⟩ : ∃ c p', p = c :: p' := by
        cases p with
        | nil => simp [keepSegment] at hpkeep
        | cons c p' => exact ⟨c, p', rfl⟩
      have hc : c ≠ '/' := fun hh =>
        hnos _ (List.mem_cons_self _ rest) (hh ▸ List.mem_cons_self c p')
      have hdl : dropLeadingSlashes (joinSlash ((c :: p') :: rest))
          = joinSlash ((c :: p') :: rest) := by
        cases rest with
        | nil =>
            rw [joinSlash]
            rw [dropLeadingSlashes, List.dropWhile_cons]
            simp [hc]
        | cons q qs =>
            rw [joinSlash, List.cons_append]
            rw [dropLeadingSlashes, List.dropWhile_cons]
            simp [hc]
      unfold sanitizeChars
      rw [hrb, hdl, splitSlash_joinSlash _ (by simp) hnos, List.filter_eq_self.mpr hmem]

theorem sanitizeChars_idem (l : List Char) :
    sanitizeChars (sanitizeChars l) = sanitizeChars l := by
  have hmem : ∀ p ∈ (splitSlash (dropLeadingSlashes (replaceBackslash l))).filter keepSegment,
      keepSegment p = true := fun p hp => (List.mem_filter.mp hp).2
  have hnos : ∀ p ∈ (splitSlash (dropLeadingSlashes (replaceBackslash l))).filter keepSegment,
      '/' ∉ p := fun p hp => mem_splitSlash_no_slash _ p (List.mem_filter.mp hp).1
  have hnob : ∀ p ∈ (splitSlash (dropLeadingSlashes (replaceBackslash l))).filter keepSegment,
      '\\' ∉ p := by
    intro p hp hmem'
    have hin : '\\' ∈ dropLeadingSlashes (replaceBackslash l) :=
      mem_splitSlash_chars _ p (List.mem_filter.mp hp).1 '\\' hmem'
    have hin2 : '\\' ∈ replaceBackslash l := List.dropWhile_subset _ hin
    simp only [replaceBackslash, List.mem_map] at hin2
    obtain ⟨a, _, ha⟩ := hin2
    by_cases h : a = '\\' <;> simp [h] at ha
  exact sanitizeChars_joinSlash _ hmem hnos hnob

/-- C10: `sanitizePath` is idempotent — sanitising an already-sanitised path
(no backslashes, no leading slash, no traversal, dot or empty segments)
passes it through unchanged. -/
theorem sanitizePath_idempotent (p : String) :
    sanitizePath (sanitizePath p) = sanitizePath p := by
  unfold sanitizePath
  exact congrArg String.mk (sanitizeChars_idem p.data)

/-! ## Enumerations -/

/-- Categories of assets (`enum AssetCategory`). -/
inductive AssetCategory where
  | images | video | audio | models | documents | data | styles | scripts | fonts | other
deriving DecidableEq

/-- Annotation motivations (`enum AnnotationType`, W3C Web-Annotation
motivation strings): `commenting`, `highlighting`, `editing` (suggestion),
`questioning`, `bookmarking`. The source names are `COMMENT`, `HIGHLIGHT`,
`SUGGESTION`, `QUESTION`, `BOOKMARK`; the constructors below carry the
string values. -/
inductive AnnotType where
  | commenting | highlighting | editing | questioning | bookmarking
deriving DecidableEq

/-- Annotation status values (`enum AnnotationStatus`). -/
inductive AnnotStatus where
  | open | resolved | wontfix | pending | accepted | rejected | answered | active | archived
deriving DecidableEq

/-- Version snapshot kinds (`enum SnapshotType`). -/
inductive SnapshotType where
  | full | diff | reference
deriving DecidableEq

/-! ## Extension-to-category table and `getExtension` / `getAssetCategory` -/

/-- The fixed `EXTENSION_TO_CATEGORY` record, in source order. -/
def EXTENSION_TO_CATEGORY : List (String × AssetCategory) :=
  [(".png", .images), (".jpg", .images), (".jpeg", .images), (".gif", .images),
   (".webp", .images), (".svg", .images), (".avif", .images), (".ico", .images),
   (".bmp", .images),
   (".mp4", .video), (".webm", .video), (".ogg", .video), (".ogv", .video),
   (".mov", .video), (".avi", .video), (".mkv", .video), (".vtt", .video), (".srt", .video),
   (".mp3", .audio), (".wav", .audio), (".flac", .audio), (".oga", .audio),
   (".m4a", .audio), (".aac", .audio), (".opus", .audio),
   (".gltf", .models), (".glb", .models), (".stl", .models), (".obj", .models),
   (".fbx", .models), (".usdz", .models), (".dae", .models), (".3ds", .models),
   (".pdf", .documents), (".html", .documents), (".htm", .documents),
   (".csv", .data), (".json", .data), (".tsv", .data), (".parquet", .data),
   (".xlsx", .data), (".xls", .data), (".xml", .data), (".yaml", .data),
   (".yml", .data), (".toml", .data),
   (".css", .styles), (".scss", .styles), (".less", .styles),
   (".js", .scripts), (".mjs", .scripts), (".ts", .scripts),
   (".woff2", .fonts), (".woff", .fonts), (".ttf", .fonts), (".otf", .fonts),
   (".eot", .fonts)]

/-- Index of the last occurrence of `c` in `l`, or `-1` (JavaScript
`String.prototype.lastIndexOf`). -/
def lastIndexOfC (l : List Char) (c : Char) : Int :=
  match l.reverse.findIdx? (fun x => x = c) with
  | some j => ((l.length - 1 - j : Nat) : Int)
  | none => -1

/-- Model of `getExtension`: the lowercased extension including the dot, or
the empty string. -/
def getExtension (filepath : String) : String :=
  let l := filepath.data
  let lastDot := lastIndexOfC l '.'
  let lastSlash := max (lastIndexOfC l '/') (lastIndexOfC l '\\')
  if lastDot > lastSlash && lastDot != -1 then
    ⟨(l.drop lastDot.toNat).map Char.toLower⟩
  else ""

/-- Model of `getAssetCategory`: category from the extension table, or
`none` if not recognized. -/
def getAssetCategory (filepath : String) : Option AssetCategory :=
  jsMapGet EXTENSION_TO_CATEGORY (getExtension filepath)

/-! ## Data model: authors, assets, versions, annotations -/

/-- An author or contributor (`interface Author`). -/
structure Author where
  name : String
  email : Option String := none
  url : Option String := none
  role : Option String := none
  organization : Option String := none
deriving DecidableEq

/-- Asset metadata. The TypeScript source is a structural union of
category-specific interfaces over `BaseAssetMetadata`; flattened here into
one record (the category-specific fields are all optional, so the union is
this record up to which fields are populated). -/
structure AssetMetadata where
  path : String
  mime_type : String
  size_bytes : Nat
  checksum : Option String := none
  description : Option String := none
  credit : Option String := none
  -- image fields
  width : Option Nat := none
  height : Option Nat := none
  alt_text : Option String := none
  title : Option String := none
  -- video/audio fields
  duration_seconds : Option Nat := none
  frame_rate : Option Nat := none
  codec : Option String := none
  poster : Option String := none
  sample_rate : Option Nat := none
  channels : Option Nat := none
  bit_rate : Option Nat := none
  transcript : Option String := none
  -- model fields
  format_version : Option String := none
  preview : Option String := none
  animations : Option Bool := none
  vertex_count : Option Nat := none
  triangle_count : Option Nat := none
  -- document fields
  pages : Option Nat := none
  pdf_version : Option String := none
  -- data fields
  rows : Option Nat := none
  columns : Option Nat := none
  delimiter : Option String := none
  has_header : Option Bool := none
  encoding : Option String := none
  schema_ref : Option String := none
  -- font fields
  family : Option String := none
  weight : Option Nat := none
  style : Option String := none
deriving DecidableEq

/-- A partial asset-metadata patch (`Partial<AssetMetadata>` as used by
`updateAsset`); required base fields become optional here. -/
structure AssetPatch where
  path : Option String := none
  mime_type : Option String := none
  size_bytes : Option Nat := none
  checksum : Option String := none
  description : Option String := none
  credit : Option String := none
  width : Option Nat := none
  height : Option Nat := none
  alt_text : Option String := none
  title : Option String := none
deriving DecidableEq

/-- Snapshot information (`interface VersionSnapshot`). -/
structure VersionSnapshot where
  type : SnapshotType
  path : String
  manifest_path : Option String := none
  base_version : Option String := none
deriving DecidableEq

/-- Change summary (`interface VersionChanges`). -/
structure VersionChanges where
  summary : Option String := none
  added : Option (List String) := none
  modified : Option (List String) := none
  removed : Option (List String) := none
deriving DecidableEq

/-- A version entry (`interface VersionEntry`). `parent_version` is
`none` for JavaScript `null`/absent. -/
structure VersionEntry where
  version : String
  timestamp : String
  author : Author
  message : String
  snapshot : Option VersionSnapshot := none
  parent_version : Option String := none
  changes : Option VersionChanges := none
  tags : Option (List String) := none
deriving DecidableEq

/-- The `history/versions.json` file structure (`interface VersionHistory`). -/
structure VersionHistory where
  schema_version : String
  current_version : String
  versions : List VersionEntry
deriving DecidableEq

/-- Annotation selectors (union of `TextQuoteSelector`,
`TextPositionSelector`, `FragmentSelector`; the `type` tag becomes the
constructor). In `TextQuoteSelector` the source fields `prefix`/`suffix`
are named `pfx`/`sfx` here; in `TextPositionSelector` the source field
`end` is named `stop`. -/
inductive AnnotSelector where
  | textQuote (exact : String) (pfx sfx : Option String)
  | textPosition (start stop : Nat)
  | fragment (value : String)
deriving DecidableEq

/-- Annotation target (`interface AnnotationTarget`). `source` is the raw
runtime value of `manifest.entryPoint`, hence optional. -/
structure AnnotTarget where
  source : Option String
  selector : AnnotSelector
deriving DecidableEq

/-- Annotation body (`interface AnnotationBody`); `type` is always the
string `TextualBody`. -/
structure AnnotBody where
  type : String
  value : String
  format : String
deriving DecidableEq

/-- A reply to an annotation (`interface AnnotationReply`). -/
structure AnnotReply where
  id : String
  created : String
  creator : Author
  body : AnnotBody
deriving DecidableEq

/-- A document annotation (`interface Annotation` in the source; the source
field `"mdx:status"` is `mdxStatus` and `"mdx:replies"` is `mdxReplies`). -/
structure Annot where
  id : String
  type : String
  motivation : AnnotType
  created : String
  modified : Option String := none
  creator : Author
  target : AnnotTarget
  body : AnnotBody
  mdxStatus : Option AnnotStatus := none
  mdxReplies : Option (List AnnotReply) := none
  tags : Option (List String) := none
deriving DecidableEq

/-- The `annotations/annotations.json` file structure (`interface
AnnotationsFile`; the source field `"@context"` is `atContext`). -/
structure AnnotsFile where
  schema_version : String
  atContext : Option String := none
  annotations : List Annot
deriving DecidableEq

/-! ## Data model: manifest sections -/

/-- An arbitrary JSON-able JavaScript value (for `unknown`-typed fields such
as `custom` data and extension config). -/
inductive JSVal where
  | str (s : String)
  | num (n : Int)
  | bool (b : Bool)
  | null
  | arr (xs : List JSVal)
  | obj (fields : List (String × JSVal))

/-- Document metadata section (`interface DocumentInfo`). The TypeScript
type requires `id`, `title`, `created`, `modified`, but after `JSON.parse`
of an arbitrary manifest any of them can be absent at runtime, so all
fields are `Option`s; `license` (a string or a `LicenseInfo` record in the
source) is kept as its string form. -/
structure DocumentInfo where
  id : Option String := none
  title : Option String := none
  subtitle : Option String := none
  description : Option String := none
  authors : Option (List Author) := none
  contributors : Option (List Author) := none
  created : Option String := none
  modified : Option String := none
  published : Option String := none
  version : Option String := none
  language : Option String := none
  license : Option String := none
  copyright : Option String := none
  keywords : Option (List String) := none
  category : Option String := none
  subject : Option String := none
  cover_image : Option String := none

/-- Additional content file reference (`interface AdditionalFile`). -/
structure AdditionalFile where
  path : String
  title : Option String := none

/-- Content configuration section (`interface ContentConfig`);
`entry_point` is required by the type but runtime-optional. -/
structure ContentConfig where
  entry_point : Option String := none
  encoding : Option String := none
  markdown_variant : Option String := none
  markdown_version : Option String := none
  extensions : Option (List String) := none
  additional_files : Option (List AdditionalFile) := none

/-- Assets inventory (`interface AssetsInventory`). The interface declares
eight categories; `styles` and `scripts` can additionally appear at runtime
because `addAsset` indexes the record with any `AssetCategory` value. -/
structure AssetsInventory where
  images : Option (List AssetMetadata) := none
  video : Option (List AssetMetadata) := none
  audio : Option (List AssetMetadata) := none
  models : Option (List AssetMetadata) := none
  documents : Option (List AssetMetadata) := none
  data : Option (List AssetMetadata) := none
  fonts : Option (List AssetMetadata) := none
  other : Option (List AssetMetadata) := none
  styles : Option (List AssetMetadata) := none
  scripts : Option (List AssetMetadata) := none

/-- Reads the array for a category (`assets[category]`). -/
def AssetsInventory.getCat (inv : AssetsInventory) : AssetCategory → Option (List AssetMetadata)
  | .images => inv.images
  | .video => inv.video
  | .audio => inv.audio
  | .models => inv.models
  | .documents => inv.documents
  | .data => inv.data
  | .fonts => inv.fonts
  | .other => inv.other
  | .styles => inv.styles
  | .scripts => inv.scripts

/-- Writes the array for a category (`assets[category] = l`). -/
def AssetsInventory.setCat (inv : AssetsInventory) (c : AssetCategory)
    (l : List AssetMetadata) : AssetsInventory :=
  match c with
  | .images => { inv with images := some l }
  | .video => { inv with video := some l }
  | .audio => { inv with audio := some l }
  | .models => { inv with models := some l }
  | .documents => { inv with documents := some l }
  | .data => { inv with data := some l }
  | .fonts => { inv with fonts := some l }
  | .other => { inv with other := some l }
  | .styles => { inv with styles := some l }
  | .scripts => { inv with scripts := some l }

/-- The empty inventory (`{}`). -/
def AssetsInventory.empty : AssetsInventory := {}

/-- The `Object.values` iteration order over an inventory: the eight declared
categories in declaration order, then the two runtime-added ones. -/
def AssetsInventory.catOrder : List AssetCategory :=
  [.images, .video, .audio, .models, .documents, .data, .fonts, .other, .styles, .scripts]

/-- Styles configuration (`interface StylesConfig`). -/
structure StylesConfig where
  theme : Option String := none
  print : Option String := none
  syntax_highlighting : Option String := none
  custom_properties : Option (List (String × String)) := none

/-- Math delimiters (`interface MathDelimiters`). -/
structure MathDelimiters where
  inline : String × String
  block : String × String

/-- Table-of-contents configuration (`interface TOCConfig`). -/
structure TOCConfig where
  enabled : Bool
  depth : Option Nat := none
  ordered : Option Bool := none

/-- Line-numbers configuration (`interface LineNumbersConfig`). -/
structure LineNumbersConfig where
  enabled : Bool
  start : Option Nat := none

/-- Footnotes configuration (`interface FootnotesConfig`). -/
structure FootnotesConfig where
  style : String

/-- Rendering configuration (`interface RenderingConfig`). -/
structure RenderingConfig where
  math_renderer : Option String := none
  math_delimiters : Option MathDelimiters := none
  table_of_contents : Option TOCConfig := none
  line_numbers : Option LineNumbersConfig := none
  footnotes : Option FootnotesConfig := none

/-- Script configuration (`interface ScriptConfig`). -/
structure ScriptConfig where
  path : String
  type : Option String := none
  integrity : Option String := none
  sandboxed : Option Bool := none
  permissions : Option (List String) := none
  load : Option String := none

/-- Interactivity configuration (`interface InteractivityConfig`). -/
structure InteractivityConfig where
  scripts : Option (List ScriptConfig) := none
  required_capabilities : Option (List String) := none
  optional_capabilities : Option (List String) := none
  fallback_behavior : Option String := none

/-- Collaboration configuration (`interface CollaborationConfig`). -/
structure CollaborationConfig where
  allow_annotations : Option Bool := none
  annotation_types : Option (List AnnotType) := none
  track_changes : Option Bool := none
  allow_replies : Option Bool := none

/-- History configuration (`interface HistoryConfig`). -/
structure HistoryConfig where
  enabled : Option Bool := none
  versions_file : Option String := none
  snapshots_directory : Option String := none
  retention_policy : Option String := none
  diff_format : Option String := none

/-- Integrity configuration (`interface IntegrityConfig`). -/
structure IntegrityConfig where
  algorithm : String
  manifest_checksum : Option String := none

/-- Signature configuration (`interface SignatureConfig`). -/
structure SignatureConfig where
  signed_by : Option String := none
  algorithm : Option String := none
  certificate : Option String := none
  signature : Option String := none

/-- Permissions configuration (`interface PermissionsConfig`). -/
structure PermissionsConfig where
  allow_external_links : Option Bool := none
  allow_external_images : Option Bool := none
  allow_scripts : Option Bool := none
  script_sandbox : Option String := none

/-- Security configuration (`interface SecurityConfig`). -/
structure SecurityConfig where
  integrity : Option IntegrityConfig := none
  signature : Option SignatureConfig := none
  permissions : Option PermissionsConfig := none

/-- Extension configuration (`interface ExtensionConfig`). -/
structure ExtensionConfig where
  version : String
  config : Option (List (String × JSVal)) := none

/-- The complete manifest (`interface MDXManifestData`; the source field
`$schema` is `schemaRef`). `document` and `content` are required by the
TypeScript type but runtime-optional after `JSON.parse`. -/
structure MDXManifestData where
  schemaRef : Option String := none
  mdx_version : Option String := none
  document : Option DocumentInfo := none
  content : Option ContentConfig := none
  assets : Option AssetsInventory := none
  styles : Option StylesConfig := none
  rendering : Option RenderingConfig := none
  interactivity : Option InteractivityConfig := none
  collaboration : Option CollaborationConfig := none
  history : Option HistoryConfig := none
  security : Option SecurityConfig := none
  extensions : Option (List (String × ExtensionConfig)) := none
  custom : Option (List (String × JSVal)) := none

/-! ## MDXManifest operations -/

/-- JavaScript falsiness of a possibly-absent string (`!x` is true for
`undefined` and for `""`). -/
def strFalsy : Option String → Bool
  | none => true
  | some s => s.isEmpty

/-- The manifest built by the `MDXManifest` constructor with no initial
data: `mdx_version`, a fresh document id, the default title, `created` and
`modified` set to now, the default content section and empty inventory
arrays for the eight declared categories. -/
def freshManifestData (uuid now : String) : MDXManifestData :=
  { mdx_version := some "1.0.0"
    document := some
      { id := some uuid
        title := some "Untitled Document"
        created := some now
        modified := some now }
    content := some
      { entry_point := some "document.md"
        encoding := some "UTF-8"
        markdown_variant := some "CommonMark" }
    assets := some
      { images := some [], video := some [], audio := some [], models := some []
        documents := some [], data := some [], fonts := some [], other := some [] } }

/-- The private `updateModified` helper: sets `document.modified` to the
current timestamp. (When `document` is absent the JavaScript assignment
would throw; theorems about mutators therefore assume `document` present.) -/
def MDXManifestData.updateModified (m : MDXManifestData) (now : String) : MDXManifestData :=
  { m with document := m.document.map (fun d => { d with modified := some now }) }

/-- The `title` getter (`this._data.document.title`). -/
def MDXManifestData.titleGet (m : MDXManifestData) : Option String :=
  m.document.bind (fun d => d.title)

/-- The `modified` getter. -/
def MDXManifestData.modifiedGet (m : MDXManifestData) : Option String :=
  m.document.bind (fun d => d.modified)

/-- The `version` getter: `this._data.document.version || "1.0.0"`
(JavaScript `||`: absent or empty falls back to the default). -/
def MDXManifestData.versionGet (m : MDXManifestData) : String :=
  match m.document with
  | some d =>
      match d.version with
      | some v => if v.isEmpty then "1.0.0" else v
      | none => "1.0.0"
  | none => "1.0.0"

/-- The raw runtime value of the `entryPoint` getter
(`this._data.content.entry_point`). -/
def MDXManifestData.entryPointRaw (m : MDXManifestData) : Option String :=
  m.content.bind (fun c => c.entry_point)

/-- The `title` setter. -/
def MDXManifestData.setTitle (m : MDXManifestData) (value now : String) : MDXManifestData :=
  MDXManifestData.updateModified
    { m with document := m.document.map (fun d => { d with title := some value }) } now

/-- The `subtitle` setter. -/
def MDXManifestData.setSubtitle (m : MDXManifestData) (value : Option String) (now : String) :
    MDXManifestData :=
  MDXManifestData.updateModified
    { m with document := m.document.map (fun d => { d with subtitle := value }) } now

/-- The `description` setter. -/
def MDXManifestData.setDescription (m : MDXManifestData) (value : Option String) (now : String) :
    MDXManifestData :=
  MDXManifestData.updateModified
    { m with document := m.document.map (fun d => { d with description := value }) } now

/-- The `version` setter. -/
def MDXManifestData.setVersion (m : MDXManifestData) (value now : String) : MDXManifestData :=
  MDXManifestData.updateModified
    { m with document := m.document.map (fun d => { d with version := some value }) } now

/-- The `language` setter. -/
def MDXManifestData.setLanguage (m : MDXManifestData) (value : Option String) (now : String) :
    MDXManifestData :=
  MDXManifestData.updateModified
    { m with document := m.document.map (fun d => { d with language := value }) } now

/-- The `entryPoint` setter. -/
def MDXManifestData.setEntryPoint (m : MDXManifestData) (value now : String) : MDXManifestData :=
  MDXManifestData.updateModified
    { m with content := m.content.map (fun c => { c with entry_point := some value }) } now

/-- `addAuthor`: pushes onto `document.authors`, creating the array if
needed. (`cleanObject` of an author is the identity in this representation,
where an absent key and `undefined` are both `none`.) -/
def MDXManifestData.addAuthor (m : MDXManifestData) (author : Author) (now : String) :
    MDXManifestData :=
  MDXManifestData.updateModified
    { m with
      document := m.document.map
        (fun d => { d with authors := some (d.authors.getD [] ++ [author]) }) } now

/-- `addContributor`: pushes onto `document.contributors`. -/
def MDXManifestData.addContributor (m : MDXManifestData) (contributor : Author) (now : String) :
    MDXManifestData :=
  MDXManifestData.updateModified
    { m with
      document := m.document.map
        (fun d =>
          { d with
            contributors := some (d.contributors.getD [] ++ [contributor]) }) } now

/-- `addAsset(metadata, category)`: creates the inventory and the category
array if missing, then appends the metadata to that category's array and
updates `modified`. No category check of any kind is performed. -/
def MDXManifestData.addAsset (m : MDXManifestData) (metadata : AssetMetadata)
    (category : AssetCategory) (now : String) : MDXManifestData :=
  let inv := m.assets.getD {}
  let arr := (inv.getCat category).getD []
  MDXManifestData.updateModified
    { m with assets := some (inv.setCat category (arr ++ [metadata])) } now

/-- `getAssets(category?)`. -/
def MDXManifestData.getAssets (m : MDXManifestData) (category : Option AssetCategory) :
    List AssetMetadata :=
  match m.assets with
  | none => []
  | some inv =>
      match category with
      | some c => (inv.getCat c).getD []
      | none => (AssetsInventory.catOrder.map (fun c => (inv.getCat c).getD [])).flatten

/-- `findAsset(path)`: linear scan across all categories. -/
def MDXManifestData.findAsset (m : MDXManifestData) (path : String) : Option AssetMetadata :=
  (m.getAssets none).find? (fun a => a.path == path)

/-- `Object.assign(asset, cleanObject(updates))`: fields present in the
patch overwrite, absent fields are preserved. -/
def applyPatch (a : AssetMetadata) (u : AssetPatch) : AssetMetadata :=
  { a with
    path := u.path.getD a.path
    mime_type := u.mime_type.getD a.mime_type
    size_bytes := u.size_bytes.getD a.size_bytes
    checksum := u.checksum.or a.checksum
    description := u.description.or a.description
    credit := u.credit.or a.credit
    width := u.width.or a.width
    height := u.height.or a.height
    alt_text := u.alt_text.or a.alt_text
    title := u.title.or a.title }

/-- Patches the first asset with the given path in a category array, if any. -/
def updateFirst (p : String) (u : AssetPatch) : List AssetMetadata → Option (List AssetMetadata)
  | [] => none
  | a :: rest =>
      if a.path == p then some (applyPatch a u :: rest)
      else (updateFirst p u rest).map (fun r => a :: r)

/-- Walks the categories in `Object.values` order looking for the asset. -/
def updateAssetGo (inv : AssetsInventory) (p : String) (u : AssetPatch) :
    List AssetCategory → Option AssetsInventory
  | [] => none
  | c :: cs =>
      match inv.getCat c with
      | some arr =>
          match updateFirst p u arr with
          | some arr2 => some (inv.setCat c arr2)
          | none => updateAssetGo inv p u cs
      | none => updateAssetGo inv p u cs

/-- The scan phase of `updateAsset`: the patched inventory if the path was
found (`if (!this._data.assets) return false` otherwise). -/
def MDXManifestData.updateAssetResult (m : MDXManifestData) (path : String) (u : AssetPatch) :
    Option AssetsInventory :=
  match m.assets with
  | none => none
  | some inv => updateAssetGo inv path u AssetsInventory.catOrder

/-- `updateAsset(path, updates)`: merges the patch into the first matching
asset and updates `modified`, returning whether a match was found. -/
def MDXManifestData.updateAsset (m : MDXManifestData) (path : String) (u : AssetPatch)
    (now : String) : MDXManifestData × Bool :=
  match m.updateAssetResult path u with
  | some inv2 => (MDXManifestData.updateModified { m with assets := some inv2 } now, true)
  | none => (m, false)

/-- `Object.assign(this._data.rendering, cleanObject(options))`. -/
def mergeRendering (old new : RenderingConfig) : RenderingConfig :=
  { math_renderer := new.math_renderer.or old.math_renderer
    math_delimiters := new.math_delimiters.or old.math_delimiters
    table_of_contents := new.table_of_contents.or old.table_of_contents
    line_numbers := new.line_numbers.or old.line_numbers
    footnotes := new.footnotes.or old.footnotes }

/-- `setRenderingOptions(options)`. -/
def MDXManifestData.setRenderingOptions (m : MDXManifestData) (options : RenderingConfig)
    (now : String) : MDXManifestData :=
  MDXManifestData.updateModified
    { m with rendering := some (mergeRendering (m.rendering.getD {}) options) } now

/-- `Object.assign(this._data.styles, cleanObject(options))`. -/
def mergeStyles (old new : StylesConfig) : StylesConfig :=
  { theme := new.theme.or old.theme
    print := new.print.or old.print
    syntax_highlighting := new.syntax_highlighting.or old.syntax_highlighting
    custom_properties := new.custom_properties.or old.custom_properties }

/-- `setStylesOptions(options)`. -/
def MDXManifestData.setStylesOptions (m : MDXManifestData) (options : StylesConfig)
    (now : String) : MDXManifestData :=
  MDXManifestData.updateModified
    { m with styles := some (mergeStyles (m.styles.getD {}) options) } now

/-- `enableCollaboration(options)`: `true` defaults overridden by the
options spread. -/
def MDXManifestData.enableCollaboration (m : MDXManifestData) (options : CollaborationConfig)
    (now : String) : MDXManifestData :=
  MDXManifestData.updateModified
    { m with
      collaboration := some
        { allow_annotations := options.allow_annotations.or (some true)
          annotation_types := options.annotation_types
          track_changes := options.track_changes.or (some true)
          allow_replies := options.allow_replies.or (some true) } } now

/-- `enableHistory(options)`: defaults overridden by the options spread. -/
def MDXManifestData.enableHistory (m : MDXManifestData) (options : HistoryConfig)
    (now : String) : MDXManifestData :=
  MDXManifestData.updateModified
    { m with
      history := some
        { enabled := options.enabled.or (some true)
          versions_file := options.versions_file.or (some "history/versions.json")
          snapshots_directory := options.snapshots_directory.or (some "history/snapshots")
          retention_policy := options.retention_policy.or (some "all")
          diff_format := options.diff_format } } now

/-- `setCustomData(key, value)`. -/
def MDXManifestData.setCustomData (m : MDXManifestData) (key : String) (value : JSVal)
    (now : String) : MDXManifestData :=
  MDXManifestData.updateModified
    { m with custom := some (jsMapSet (m.custom.getD []) key value) } now

/-- `validate()`: the required-field checks, in source order, using
JavaScript falsiness on string fields. Never throws; returns the message
list. -/
def MDXManifestData.validate (m : MDXManifestData) : List String :=
  (if strFalsy m.mdx_version then ["Missing required field: mdx_version"] else [])
  ++ (match m.document with
      | none => ["Missing required field: document"]
      | some d =>
          (if strFalsy d.id then ["Missing required document field: id"] else [])
          ++ (if strFalsy d.title then ["Missing required document field: title"] else [])
          ++ (if strFalsy d.created then ["Missing required document field: created"] else [])
          ++ (if strFalsy d.modified then ["Missing required document field: modified"] else []))
  ++ (match m.content with
      | none => ["Missing required field: content"]
      | some c =>
          if strFalsy c.entry_point then ["Missing required content field: entry_point"] else [])

/-! ## MDXDocument -/

/-- Options for `MDXDocument.create`. -/
structure CreateDocumentOptions where
  author : Option String := none
  authorEmail : Option String := none
  description : Option String := none
  language : Option String := none
  version : Option String := none

/-- Options bag for `addAnnotation` (the source fields `prefix`/`suffix`
are named `pfx`/`sfx` here). -/
structure AnnotOptions where
  tags : Option (List String) := none
  pfx : Option String := none
  sfx : Option String := none

/-- The in-memory document: manifest, Markdown content, asset store
(path-keyed byte map), version list, annotation list. -/
structure MDXDocument where
  manifest : MDXManifestData
  content : String
  assets : List (String × List Nat)
  versions : List VersionEntry
  annotations : List Annot

/-- `MDXDocument.create(title, options)`. Option fields are applied with the
source's JavaScript truthiness tests (`if (options.description)` etc.), so
empty strings are skipped like absent ones. -/
def MDXDocument.create (title : String) (options : CreateDocumentOptions)
    (uuid now : String) : MDXDocument :=
  let m0 := (freshManifestData uuid now).setTitle title now
  let m1 := if strFalsy options.description then m0 else m0.setDescription options.description now
  let m2 := if strFalsy options.language then m1 else m1.setLanguage options.language now
  let m3 := if strFalsy options.version then m2
    else m2.setVersion (options.version.getD "") now
  let m4 := if strFalsy options.author then m3
    else m3.addAuthor
      { name := options.author.getD "", email := options.authorEmail, role := some "author" } now
  { manifest := m4
    content := "# " ++ title ++ "\n\n"
    assets := []
    versions := []
    annotations := [] }

/-- `setContent(markdown)`. -/
def MDXDocument.setContent (d : MDXDocument) (markdown : String) : MDXDocument :=
  { d with content := markdown }

/-- `appendContent(markdown)`. -/
def MDXDocument.appendContent (d : MDXDocument) (markdown : String) : MDXDocument :=
  { d with content := d.content ++ markdown }

/-- `getAsset(path)`. -/
def MDXDocument.getAsset (d : MDXDocument) (path : String) : Option (List Nat) :=
  jsMapGet d.assets path

/-- `getAssetAsString(path)` (TextDecoder on the stored bytes). -/
def MDXDocument.getAssetAsString (d : MDXDocument) (path : String) : Option String :=
  (jsMapGet d.assets path).map (fun b => (⟨utf8Decode b⟩ : String))

/-- `hasAsset(path)`. -/
def MDXDocument.hasAsset (d : MDXDocument) (path : String) : Bool :=
  jsMapHas d.assets path

/-- `removeAsset(path)`: `return this._assets.delete(path)` — the stored
bytes are removed, nothing else is touched (in particular not the
manifest). -/
def MDXDocument.removeAsset (d : MDXDocument) (path : String) : MDXDocument × Bool :=
  ({ d with assets := jsMapDelete d.assets path }, jsMapHas d.assets path)

/-- Truthiness of `this._manifest.toObject().history?.enabled`. -/
def historyEnabled (m : MDXManifestData) : Bool :=
  match m.history with
  | some h => h.enabled.getD false
  | none => false

/-- Truthiness of `this._manifest.toObject().collaboration?.allow_annotations`. -/
def collabAllowed (m : MDXManifestData) : Bool :=
  match m.collaboration with
  | some c => c.allow_annotations.getD false
  | none => false

/-- `createVersion(version, message, author, changes?)`: enables history if
needed, snapshots the current content (UTF-8) at
`history/snapshots/v<version>.md` in the asset store, links
`parent_version` to the previous last entry (or `null`), appends the entry
and moves the manifest's version pointer. -/
def MDXDocument.createVersion (d : MDXDocument) (version message : String) (author : Author)
    (changes : Option VersionChanges) (now : String) : MDXDocument :=
  let m0 := if historyEnabled d.manifest then d.manifest else d.manifest.enableHistory {} now
  let snapshotPath := "history/snapshots/v" ++ version ++ ".md"
  let assets1 := jsMapSet d.assets snapshotPath (utf8Encode d.content.data)
  let parentVersion := (d.versions.getLast?).map (fun v => v.version)
  let entry : VersionEntry :=
    { version := version
      timestamp := now
      author := author
      message := message
      snapshot := some { type := .full, path := snapshotPath }
      parent_version := parentVersion
      changes := changes }
  { d with
    manifest := m0.setVersion version now
    assets := assets1
    versions := d.versions ++ [entry] }

/-- `getVersionContent(version)`: resolves the first entry with that version
string, then reads its snapshot path from the asset store (the source
guards on the truthiness of `entry?.snapshot?.path`). -/
def MDXDocument.getVersionContent (d : MDXDocument) (version : String) : Option String :=
  match d.versions.find? (fun v => v.version == version) with
  | some entry =>
      match entry.snapshot with
      | some snap => if snap.path.isEmpty then none else d.getAssetAsString snap.path
      | none => none
  | none => none

/-- `restoreVersion(version)`: replaces the current content with the
resolved snapshot content; returns whether it succeeded. -/
def MDXDocument.restoreVersion (d : MDXDocument) (version : String) : MDXDocument × Bool :=
  match d.getVersionContent version with
  | some content => ({ d with content := content }, true)
  | none => (d, false)

/-- `addAnnotation(type, author, targetText, body, options)`: enables
collaboration if needed and appends a new annotation whose `mdx:status` is
unconditionally `AnnotationStatus.OPEN`; returns the generated id. -/
def MDXDocument.addAnnot (d : MDXDocument) (type : AnnotType) (author : Author)
    (targetText body : String) (options : AnnotOptions) (uuid now : String) :
    MDXDocument × String :=
  let m0 := if collabAllowed d.manifest then d.manifest
    else d.manifest.enableCollaboration {} now
  let annId := "urn:mdx:annotation:" ++ uuid
  let ann : Annot :=
    { id := annId
      type := "Annotation"
      motivation := type
      created := now
      creator := author
      target := { source := d.manifest.entryPointRaw
                  selector := .textQuote targetText options.pfx options.sfx }
      body := { type := "TextualBody", value := body, format := "text/plain" }
      mdxStatus := some .open
      tags := options.tags }
  ({ d with manifest := m0, annotations := d.annotations ++ [ann] }, annId)

/-! ## Archive codec (`save` / `open`)

The ZIP container and the JSON library are external collaborators; an
archive is modelled as the insertion-ordered map from entry names to entry
data. A `text`/`bin` entry stores exactly the string/bytes written
(`zip.file(name, string)` / `zip.file(name, uint8array)`); the three
`…Json` constructors stand for the `JSON.stringify` text of the
corresponding record, and `JSON.parse` of such an entry recovers the
record (stringify/parse of the stock JSON library is the identity in this
representation, where an absent key and `undefined` are both `none`).
Reading a json entry as raw bytes yields the UTF-8 of its JSON text; no
theorem below depends on those bytes, so they are abstracted to `[]`. -/

/-- One archive entry's data. -/
inductive ZipData where
  | text (s : String)
  | bin (b : List Nat)
  | manifestJson (m : MDXManifestData)
  | versionsJson (v : VersionHistory)
  | annotsJson (a : AnnotsFile)

/-- `entry.async("text")`. -/
def ZipData.asyncText : ZipData → String
  | .text s => s
  | .bin b => ⟨utf8Decode b⟩
  | .manifestJson _ => ""
  | .versionsJson _ => ""
  | .annotsJson _ => ""

/-- `entry.async("uint8array")`. -/
def ZipData.asyncBytes : ZipData → List Nat
  | .text s => utf8Encode s.data
  | .bin b => b
  | .manifestJson _ => []
  | .versionsJson _ => []
  | .annotsJson _ => []

/-- `JSON.parse` of a manifest entry's text, as the manifest record. -/
def parseManifestJson : ZipData → Option MDXManifestData
  | .manifestJson m => some m
  | _ => none

/-- `JSON.parse` of a versions entry's text. -/
def parseVersionsJson : ZipData → Option VersionHistory
  | .versionsJson v => some v
  | _ => none

/-- `JSON.parse` of an annotations entry's text. -/
def parseAnnotsJson : ZipData → Option AnnotsFile
  | .annotsJson a => some a
  | _ => none

/-- The entries written by `save()`, in write order: `manifest.json`, the
entry-point content, every stored asset, then `history/versions.json` iff
the version list is non-empty and `annotations/annotations.json` iff the
annotation list is non-empty. (When `entry_point` is absent at runtime the
JavaScript key coerces to the string `undefined`.) -/
def saveEntries (d : MDXDocument) : List (String × ZipData) :=
  let z0 := jsMapSet [] "manifest.json" (ZipData.manifestJson d.manifest)
  let ep := match d.manifest.content with
    | some c => c.entry_point.getD "undefined"
    | none => "undefined"
  let z1 := jsMapSet z0 ep (ZipData.text d.content)
  let z2 := d.assets.foldl (fun z pb => jsMapSet z pb.1 (ZipData.bin pb.2)) z1
  let z3 := if d.versions.isEmpty then z2
    else jsMapSet z2 "history/versions.json"
      (ZipData.versionsJson
        { schema_version := "1.0.0"
          current_version := d.manifest.versionGet
          versions := d.versions })
  if d.annotations.isEmpty then z3
  else jsMapSet z3 "annotations/annotations.json"
    (ZipData.annotsJson
      { schema_version := "1.0.0"
        atContext := some "http://www.w3.org/ns/anno.jsonld"
        annotations := d.annotations })

/-- `save()`: re-validates the manifest (throwing on any error), then writes
the archive. -/
def MDXDocument.save (d : MDXDocument) : Except String (List (String × ZipData)) :=
  let errors := d.manifest.validate
  if errors.isEmpty then .ok (saveEntries d)
  else .error ("Invalid manifest: " ++ String.intercalate ", " errors)

/-- `MDXDocument.open(data)`: reads `manifest.json` (fatal if absent or
unparseable), resolves the entry point from the parsed manifest with **no
defaulting** (an absent `content` throws a TypeError; an absent
`entry_point` makes the lookup fail and `open` reject with
`missing undefined`), reads the content, loads every other non-directory
entry as an asset keyed by its path, then parses the optional version and
annotation side-files. -/
def openDoc (entries : List (String × ZipData)) : Except String MDXDocument :=
  match jsMapGet entries "manifest.json" with
  | none => .error "Invalid MDX file: missing manifest.json"
  | some me =>
      match parseManifestJson me with
      | none => .error "Invalid MDX file: manifest.json did not parse"
      | some m =>
          match m.content with
          | none => .error "TypeError: cannot read entry_point of undefined"
          | some c =>
              match c.entry_point with
              | none => .error "Invalid MDX file: missing undefined"
              | some ep =>
                  match jsMapGet entries ep with
                  | none => .error ("Invalid MDX file: missing " ++ ep)
                  | some ce =>
                      let assets := (entries.filter
                          (fun e => e.1 != "manifest.json" && e.1 != ep)).map
                          (fun e => (e.1, e.2.asyncBytes))
                      match jsMapGet entries "history/versions.json" with
                      | some ve =>
                          match parseVersionsJson ve with
                          | none => .error "Unexpected token in JSON: history/versions.json"
                          | some vh =>
                              match jsMapGet entries "annotations/annotations.json" with
                              | some ae =>
                                  match parseAnnotsJson ae with
                                  | none =>
                                      .error "Unexpected token in JSON: annotations/annotations.json"
                                  | some af =>
                                      .ok { manifest := m, content := ce.asyncText,
                                            assets := assets, versions := vh.versions,
                                            annotations := af.annotations }
                              | none =>
                                  .ok { manifest := m, content := ce.asyncText,
                                        assets := assets, versions := vh.versions,
                                        annotations := [] }
                      | none =>
                          match jsMapGet entries "annotations/annotations.json" with
                          | some ae =>
                              match parseAnnotsJson ae with
                              | none =>
                                  .error "Unexpected token in JSON: annotations/annotations.json"
                              | some af =>
                                  .ok { manifest := m, content := ce.asyncText,
                                        assets := assets, versions := [],
                                        annotations := af.annotations }
                          | none =>
                              .ok { manifest := m, content := ce.asyncText,
                                    assets := assets, versions := [], annotations := [] }

/-! ## Validator (`cli/src/commands/validate.js`) -/

/-- Issue severity levels (`const Level`). -/
inductive VLevel where
  | error | warning | info
deriving DecidableEq

/-- A reported issue (`{ message, details }`). -/
structure VIssue where
  message : String
  details : Option String := none
deriving DecidableEq

/-- The validator's accumulating state: the three issue lists. -/
structure VState where
  errors : List VIssue := []
  warnings : List VIssue := []
  info : List VIssue := []
deriving DecidableEq

/-- `addIssue(level, message, details)`: pushes onto the list selected by
the level. -/
def addIssue (st : VState) (level : VLevel) (message : String) (details : Option String) :
    VState :=
  match level with
  | .error => { st with errors := st.errors ++ [{ message := message, details := details }] }
  | .warning => { st with warnings := st.warnings ++ [{ message := message, details := details }] }
  | .info => { st with info := st.info ++ [{ message := message, details := details }] }

/-- The summary block of `getResults()`. -/
structure VSummary where
  errors : Nat
  warnings : Nat
  info : Nat
deriving DecidableEq

/-- The result of `getResults()`. -/
structure VResult where
  valid : Bool
  errors : List VIssue
  warnings : List VIssue
  info : List VIssue
  summary : VSummary
deriving DecidableEq

/-- `getResults()`: `valid` is exactly `errors.length === 0`. -/
def getResults (st : VState) : VResult :=
  { valid := st.errors.length == 0
    errors := st.errors
    warnings := st.warnings
    info := st.info
    summary :=
      { errors := st.errors.length
        warnings := st.warnings.length
        info := st.info.length } }

/-- A validator run, abstracted as the sequence of `addIssue` calls the
pipeline stages make. -/
def applyIssues (st : VState) (issues : List (VLevel × String × Option String)) : VState :=
  issues.foldl (fun s i => addIssue s i.1 i.2.1 i.2.2) st

/-- A raw archive entry as the validator sees it (`adm-zip` entry). -/
structure ZipEntryInfo where
  entryName : String
  isDirectory : Bool
  size : Nat

/-- The orphan-detection phase of `validateAssets`: every non-directory
`assets/` entry not referenced by any manifest asset record yields one
warning. -/
def orphanIssues (entries : List ZipEntryInfo) (manifestedPaths : List String) :
    List (VLevel × String × Option String) :=
  (entries.filter (fun e =>
      e.entryName.startsWith "assets/" && !e.isDirectory
        && !manifestedPaths.contains e.entryName)).map
    (fun e => (VLevel.warning, "Orphaned asset (not in manifest): " ++ e.entryName, none))

theorem applyIssues_cons (st : VState) (i : VLevel × String × Option String)
    (is : List (VLevel × String × Option String)) :
    applyIssues st (i :: is) = applyIssues (addIssue st i.1 i.2.1 i.2.2) is := rfl

theorem applyIssues_errors (st : VState) (issues : List (VLevel × String × Option String)) :
    (applyIssues st issues).errors
      = st.errors ++ (issues.filter (fun i => i.1 == VLevel.error)).map
          (fun i => { message := i.2.1, details := i.2.2 }) := by
  induction issues generalizing st with
  | nil => simp [applyIssues]
  | cons i is ih =>
      rw [applyIssues_cons, ih, List.filter_cons]
      cases hl : i.1 with
      | error =>
          rw [if_pos (by simp [hl])]
          simp [addIssue, hl]
      | warning =>
          rw [if_neg (by simp [hl])]
          simp [addIssue, hl]
      | info =>
          rw [if_neg (by simp [hl])]
          simp [addIssue, hl]

/-- C6: the Validator's verdict is `valid === (errors.length === 0)`;
across any run of `addIssue` calls the verdict depends only on the
error-level issues (warnings and info never affect it), and the orphaned
`assets/` entry check produces only warning-level issues. -/
theorem validator_valid_iff_no_errors (st : VState)
    (issues : List (VLevel × String × Option String))
    (entries : List ZipEntryInfo) (manifestedPaths : List String) :
    ((getResults (applyIssues st issues)).valid
        = ((applyIssues st issues).errors.length == 0))
    ∧ ((getResults (applyIssues st issues)).valid = true
        ↔ st.errors = [] ∧ ∀ i ∈ issues, i.1 ≠ VLevel.error)
    ∧ (∀ i ∈ orphanIssues entries manifestedPaths, i.1 = VLevel.warning) := by
  refine ⟨rfl, ?_, ?_⟩
  · show (decide ((applyIssues st issues).errors.length = 0)) = true ↔ _
    rw [decide_eq_true_iff, applyIssues_errors, List.length_append]
    constructor
    · intro h
      have h1 : st.errors.length = 0 := by omega
      have h2 : ((issues.filter (fun i => i.1 == VLevel.error)).map
          (fun i => ({ message := i.2.1, details := i.2.2 } : VIssue))).length = 0 := by omega
      refine ⟨List.length_eq_zero.mp h1, ?_⟩
      intro i hi hlev
      have : i ∈ issues.filter (fun i => i.1 == VLevel.error) :=
        List.mem_filter.mpr ⟨hi, by simp [hlev]⟩
      have hne : issues.filter (fun i => i.1 == VLevel.error) ≠ [] :=
        List.ne_nil_of_mem this
      rw [List.length_map] at h2
      exact hne (List.length_eq_zero.mp h2)
    · rintro ⟨h1, h2⟩
      rw [h1]
      have : issues.filter (fun i => i.1 == VLevel.error) = [] := by
        rw [List.filter_eq_nil_iff]
        intro i hi
        simp only [beq_iff_eq]
        exact h2 i hi
      rw [this]
      simp
  · intro i hi
    simp only [orphanIssues, List.mem_map] at hi
    obtain ⟨e, _, he⟩ := hi
    rw [← he]

/-! ## Sample concrete values used by witnesses and counterexamples -/

/-- A concrete author. -/
def authorA : Author := { name := "Ada" }

/-- A concrete freshly created document. -/
def docA : MDXDocument := MDXDocument.create "Doc" {} "id-0001" "2025-01-01T00:00:00Z"

/-! ## C9 — removeAsset frame -/

/-- C9: `removeAsset(path)` deletes only the stored byte payload: the
manifest (including its asset records), the content, the version list and
the annotation list are untouched, the asset map loses exactly the entry
for `path`, and every other key still resolves to the same payload. -/
theorem removeAsset_only_deletes_store_bytes (d : MDXDocument) (path : String) :
    (d.removeAsset path).1.manifest = d.manifest
    ∧ (d.removeAsset path).1.content = d.content
    ∧ (d.removeAsset path).1.versions = d.versions
    ∧ (d.removeAsset path).1.annotations = d.annotations
    ∧ (d.removeAsset path).1.assets = jsMapDelete d.assets path
    ∧ (∀ q, q ≠ path → jsMapGet (d.removeAsset path).1.assets q = jsMapGet d.assets q) := by
  refine ⟨rfl, rfl, rfl, rfl, rfl, ?_⟩
  intro q hq
  exact jsMapGet_delete_ne _ _ _ hq

/-- Witness for C9 at a concrete document and keys. -/
theorem removeAsset_only_deletes_store_bytes_witness :
    ("other.bin" : String) ≠ "assets/images/a.png"
    ∧ jsMapGet ((docA.removeAsset "assets/images/a.png").1.assets) "other.bin"
        = jsMapGet docA.assets "other.bin" :=
  ⟨by decide,
   (removeAsset_only_deletes_store_bytes docA "assets/images/a.png").2.2.2.2.2 "other.bin"
     (by decide)⟩

/-! ## C8 — every mutating setter updates `document.modified` -/

theorem modifiedGet_updateModified_of_isSome (m : MDXManifestData) (now : String)
    (h : m.document.isSome = true) :
    (m.updateModified now).modifiedGet = some now := by
  cases hd : m.document with
  | none => rw [hd] at h; simp at h
  | some dd => simp [MDXManifestData.updateModified, MDXManifestData.modifiedGet, hd]

/-- C8: every mutating setter and mutator of the manifest model — the
`title`, `subtitle`, `description`, `version`, `language` and `entryPoint`
setters, `addAuthor`, `addContributor`, `addAsset`, a successful
`updateAsset`, `setRenderingOptions`, `setStylesOptions`,
`enableCollaboration`, `enableHistory` and `setCustomData` — sets
`document.modified` to the current timestamp as a side effect. -/
theorem mutators_update_modified (m : MDXManifestData) (dd : DocumentInfo)
    (cc : ContentConfig) (hdoc : m.document = some dd) (_hcont : m.content = some cc)
    (v now : String) (ov : Option String) (a : Author) (meta : AssetMetadata)
    (cat : AssetCategory) (p : String) (u : AssetPatch) (r : RenderingConfig)
    (sty : StylesConfig) (co : CollaborationConfig) (hc : HistoryConfig)
    (key : String) (val : JSVal) :
    (m.setTitle v now).modifiedGet = some now
    ∧ (m.setSubtitle ov now).modifiedGet = some now
    ∧ (m.setDescription ov now).modifiedGet = some now
    ∧ (m.setVersion v now).modifiedGet = some now
    ∧ (m.setLanguage ov now).modifiedGet = some now
    ∧ (m.setEntryPoint v now).modifiedGet = some now
    ∧ (m.addAuthor a now).modifiedGet = some now
    ∧ (m.addContributor a now).modifiedGet = some now
    ∧ (m.addAsset meta cat now).modifiedGet = some now
    ∧ ((m.updateAsset p u now).2 = true → (m.updateAsset p u now).1.modifiedGet = some now)
    ∧ (m.setRenderingOptions r now).modifiedGet = some now
    ∧ (m.setStylesOptions sty now).modifiedGet = some now
    ∧ (m.enableCollaboration co now).modifiedGet = some now
    ∧ (m.enableHistory hc now).modifiedGet = some now
    ∧ (m.setCustomData key val now).modifiedGet = some now := by
  have hs : m.document.isSome = true := by rw [hdoc]; rfl
  refine ⟨?_, ?_, ?_, ?_, ?_, ?_, ?_, ?_, ?_, ?_, ?_, ?_, ?_, ?_, ?_⟩
  · exact modifiedGet_updateModified_of_isSome _ _ (by simp [hdoc])
  · exact modifiedGet_updateModified_of_isSome _ _ (by simp [hdoc])
  · exact modifiedGet_updateModified_of_isSome _ _ (by simp [hdoc])
  · exact modifiedGet_updateModified_of_isSome _ _ (by simp [hdoc])
  · exact modifiedGet_updateModified_of_isSome _ _ (by simp [hdoc])
  · exact modifiedGet_updateModified_of_isSome _ _ (by simp [hdoc])
  · exact modifiedGet_updateModified_of_isSome _ _ (by simp [hdoc])
  · exact modifiedGet_updateModified_of_isSome _ _ (by simp [hdoc])
  · exact modifiedGet_updateModified_of_isSome _ _ (by simp [hdoc])
  · intro hb
    unfold MDXManifestData.updateAsset at hb ⊢
    revert hb
    cases hres : m.updateAssetResult p u with
    | none => intro hb; exact Bool.noConfusion hb
    | some inv2 =>
        intro _hb
        exact modifiedGet_updateModified_of_isSome _ _ (by simp [hdoc])
  · exact modifiedGet_updateModified_of_isSome _ _ (by simp [hdoc])
  · exact modifiedGet_updateModified_of_isSome _ _ (by simp [hdoc])
  · exact modifiedGet_updateModified_of_isSome _ _ (by simp [hdoc])
  · exact modifiedGet_updateModified_of_isSome _ _ (by simp [hdoc])
  · exact modifiedGet_updateModified_of_isSome _ _ (by simp [hdoc])

/-- Witness for C8 at a concrete manifest. -/
theorem mutators_update_modified_witness :
    ((freshManifestData "id-2" "t0").setTitle "T" "t1").modifiedGet = some "t1" :=
  (mutators_update_modified (freshManifestData "id-2" "t0") _ _ rfl rfl
    "T" "t1" none authorA { path := "p", mime_type := "m", size_bytes := 0 }
    AssetCategory.images "p" {} {} {} {} {} "k" JSVal.null).1

/-! ## C2 — addAsset and the specified CategoryMismatch check -/

theorem getCat_setCat_self (inv : AssetsInventory) (c : AssetCategory) (l : List AssetMetadata) :
    (inv.setCat c l).getCat c = some l := by
  cases c <;> rfl

theorem getCat_setCat_ne (inv : AssetsInventory) (c c' : AssetCategory) (l : List AssetMetadata)
    (h : c' ≠ c) : (inv.setCat c l).getCat c' = inv.getCat c' := by
  cases c <;> cases c' <;> first | exact absurd rfl h | rfl

/-- The error the specification says `addAsset` raises. -/
inductive AddAssetError where
  | categoryMismatch
deriving DecidableEq

/-- The `addAsset` described by the specification (a second definition,
following the spec's words, for comparison against the source's
`MDXManifestData.addAsset`): fail with `CategoryMismatch` when the category
implied by the metadata (from its path's extension) conflicts with the
`category` argument, otherwise append. -/
def addAssetSpec (m : MDXManifestData) (metadata : AssetMetadata) (category : AssetCategory)
    (now : String) : Except AddAssetError MDXManifestData :=
  match getAssetCategory metadata.path with
  | some implied =>
      if implied ≠ category then .error .categoryMismatch
      else .ok (m.addAsset metadata category now)
  | none => .ok (m.addAsset metadata category now)

/-- A concrete image asset record. -/
def metaFig : AssetMetadata := { path := "assets/images/fig.png", mime_type := "image/png",
                                 size_bytes := 3 }

/-- C2 counterexample: adding image-implied metadata under the `audio`
category must fail with `CategoryMismatch` according to the claim, but the
source's `addAsset` performs no check whatsoever and appends the metadata
to the `audio` array. -/
theorem addAsset_categoryMismatch_counterexample :
    getAssetCategory metaFig.path = some AssetCategory.images
    ∧ AssetCategory.images ≠ AssetCategory.audio
    ∧ addAssetSpec (freshManifestData "id-3" "t0") metaFig AssetCategory.audio "t1"
        = Except.error AddAssetError.categoryMismatch
    ∧ ((freshManifestData "id-3" "t0").addAsset metaFig AssetCategory.audio "t1").assets
        = some ((freshManifestData "id-3" "t0").assets.getD {} |>.setCat
            AssetCategory.audio [metaFig]) := by
  refine ⟨by decide, by decide, rfl, rfl⟩

/-- C2 (amended): `addAsset(metadata, category)` never fails and never
inspects the implied category: it always appends the metadata to the given
category's array (creating the inventory or the array if missing), leaving
every other category array unchanged. -/
theorem addAsset_appends_unconditionally (m : MDXManifestData) (meta : AssetMetadata)
    (cat : AssetCategory) (now : String) :
    ∃ inv2, (m.addAsset meta cat now).assets = some inv2
      ∧ inv2.getCat cat = some (((m.assets.getD {}).getCat cat).getD [] ++ [meta])
      ∧ (∀ c, c ≠ cat → inv2.getCat c = (m.assets.getD {}).getCat c) := by
  refine ⟨_, rfl, getCat_setCat_self _ _ _, ?_⟩
  intro c hc
  exact getCat_setCat_ne _ _ _ _ hc

/-- Witness for C2's amended theorem at a concrete manifest. -/
theorem addAsset_appends_unconditionally_witness :
    ∃ inv2, ((freshManifestData "id-4" "t0").addAsset metaFig AssetCategory.audio "t1").assets
        = some inv2
      ∧ inv2.getCat AssetCategory.audio
          = some ((((freshManifestData "id-4" "t0").assets.getD {}).getCat
              AssetCategory.audio).getD [] ++ [metaFig])
      ∧ (∀ c, c ≠ AssetCategory.audio
          → inv2.getCat c = ((freshManifestData "id-4" "t0").assets.getD {}).getCat c) :=
  addAsset_appends_unconditionally (freshManifestData "id-4" "t0") metaFig
    AssetCategory.audio "t1"

/-! ## C3 — the initial annotation status -/

/-- C3: `addAnnotation` sets the new annotation's `mdx:status` to `open`
regardless of the motivation — in particular for the `editing` motivation,
where both the claim's lookup table and the repository's format
specification (whose legal statuses for `editing` are `pending`,
`accepted`, `rejected`) require `pending`. -/
theorem addAnnot_status_always_open (d : MDXDocument) (t : AnnotType) (a : Author)
    (targetText body : String) (o : AnnotOptions) (uuid now : String) :
    ((d.addAnnot t a targetText body o uuid now).1.annotations.getLast?).map
        (fun an => an.mdxStatus)
      = some (some AnnotStatus.open) := by
  unfold MDXDocument.addAnnot
  simp

/-! ## C4 — open() and the missing entry-point default -/

/-- A manifest that parses as JSON but does not declare
`content.entry_point` (the `content` section is present and empty). -/
def mC4 : MDXManifestData :=
  { mdx_version := some "1.0.0"
    document := some { id := some "123e4567-e89b-42d3-a456-426614174000", title := some "T",
                       created := some "t0", modified := some "t0" }
    content := some {} }

/-- An archive with that manifest and with a `document.md` entry present. -/
def archC4 : List (String × ZipData) :=
  [("manifest.json", ZipData.manifestJson mC4), ("document.md", ZipData.text "# Hello\n")]

/-- C4: on an archive whose manifest parses but does not declare
`content.entry_point`, `open()` does **not** fall back to `document.md`
even though that entry exists: the undefined entry point makes the content
lookup fail and `open` rejects (the repository's own docs mandate the
`document.md` default, which `validate.js` implements but `open()` does
not). -/
theorem openDoc_does_not_default_entry_point :
    (jsMapGet archC4 "document.md").isSome = true
    ∧ openDoc archC4 = Except.error "Invalid MDX file: missing undefined" :=
  ⟨rfl, rfl⟩

/-- Witness for C6 at a concrete warning-only run. -/
theorem validator_valid_iff_no_errors_witness :
    (getResults (applyIssues {} [(VLevel.warning, "Orphaned asset", none)])).valid = true :=
  ((validator_valid_iff_no_errors {} [(VLevel.warning, "Orphaned asset", none)] [] []).2.1).mpr
    ⟨rfl, by decide⟩

/-! ## C5 — version chain integrity -/

/-- One `createVersion` call's arguments. -/
structure CreateVersionCall where
  version : String
  message : String
  author : Author
  changes : Option VersionChanges := none
  now : String

/-- A sequence of `createVersion` calls on a document. -/
def applyCreateVersions (d : MDXDocument) (calls : List CreateVersionCall) : MDXDocument :=
  calls.foldl (fun d c => d.createVersion c.version c.message c.author c.changes c.now) d

/-- The chain predicate: the first entry's parent is `prev` and every later
entry's parent is the previous entry's version. -/
def chainFrom (prev : Option String) : List VersionEntry → Prop
  | [] => True
  | v :: rest => v.parent_version = prev ∧ chainFrom (some v.version) rest

/-- The version of the last entry, or `prev` for the empty list. -/
def lastVer (prev : Option String) (vs : List VersionEntry) : Option String :=
  match vs.getLast? with
  | some v => some v.version
  | none => prev

theorem lastVer_cons (prev : Option String) (v : VersionEntry) (rest : List VersionEntry) :
    lastVer prev (v :: rest) = lastVer (some v.version) rest := by
  cases rest with
  | nil => simp [lastVer]
  | cons r rs =>
      show lastVer prev (v :: r :: rs) = lastVer (some v.version) (r :: rs)
      unfold lastVer
      rw [List.getLast?_cons_cons]
      cases hgl : (r :: rs).getLast? with
      | none =>
          have hsome := List.getLast?_isSome (l := r :: rs)
          rw [hgl] at hsome
          simp at hsome
      | some x => rfl

theorem chainFrom_append (prev : Option String) (vs : List VersionEntry) (e : VersionEntry)
    (h : chainFrom prev vs) (he : e.parent_version = lastVer prev vs) :
    chainFrom prev (vs ++ [e]) := by
  induction vs generalizing prev with
  | nil => exact ⟨by simpa [lastVer] using he, trivial⟩
  | cons v rest ih =>
      obtain ⟨h1, h2⟩ := h
      exact ⟨h1, ih _ h2 (by rw [he, lastVer_cons])⟩

theorem chainFrom_createVersion (d : MDXDocument) (ver msg : String) (a : Author)
    (ch : Option VersionChanges) (now : String) (h : chainFrom none d.versions) :
    chainFrom none (d.createVersion ver msg a ch now).versions := by
  apply chainFrom_append _ _ _ h
  show ((d.versions.getLast?).map (fun v => v.version)) = lastVer none d.versions
  cases hl : d.versions.getLast? <;> simp [lastVer, hl]

theorem chainFrom_applyCreateVersions (calls : List CreateVersionCall) (d : MDXDocument)
    (h : chainFrom none d.versions) :
    chainFrom none (applyCreateVersions d calls).versions := by
  induction calls generalizing d with
  | nil => exact h
  | cons c cs ih => exact ih _ (chainFrom_createVersion _ _ _ _ _ _ h)

theorem chainFrom_index (vs : List VersionEntry) : ∀ (prev : Option String), chainFrom prev vs →
    (∀ hv : 0 < vs.length, (vs.get ⟨0, hv⟩).parent_version = prev)
    ∧ (∀ i, ∀ hi : i + 1 < vs.length,
        (vs.get ⟨i + 1, hi⟩).parent_version
          = some ((vs.get ⟨i, Nat.lt_of_succ_lt hi⟩).version)) := by
  induction vs with
  | nil =>
      intro prev _
      exact ⟨fun hv => absurd hv (by simp), fun i hi => absurd hi (by simp)⟩
  | cons v rest ih =>
      intro prev h
      obtain ⟨h1, h2⟩ := h
      obtain ⟨iha, ihb⟩ := ih (some v.version) h2
      constructor
      · intro _
        exact h1
      · intro i hi
        cases i with
        | zero =>
            have hr : 0 < rest.length := by simp at hi; omega
            simpa using iha hr
        | succ j =>
            have hj : j + 1 < rest.length := by simp at hi; omega
            simpa using ihb j hj

/-- C5: starting from a document with no versions, after any sequence of
`createVersion` calls the first entry's `parent_version` is `null` and
every later entry's `parent_version` equals the previous entry's
`version`. -/
theorem createVersion_parent_chain (d0 : MDXDocument) (h : d0.versions = [])
    (calls : List CreateVersionCall) :
    (∀ hv : 0 < (applyCreateVersions d0 calls).versions.length,
        ((applyCreateVersions d0 calls).versions.get ⟨0, hv⟩).parent_version = none)
    ∧ (∀ i, ∀ hi : i + 1 < (applyCreateVersions d0 calls).versions.length,
        ((applyCreateVersions d0 calls).versions.get ⟨i + 1, hi⟩).parent_version
          = some (((applyCreateVersions d0 calls).versions.get
              ⟨i, Nat.lt_of_succ_lt hi⟩).version)) := by
  have hch : chainFrom none (applyCreateVersions d0 calls).versions :=
    chainFrom_applyCreateVersions calls d0 (by rw [h]; trivial)
  exact chainFrom_index _ none hch

/-- A concrete `createVersion` call. -/
def cvCall (v t : String) : CreateVersionCall :=
  { version := v, message := "m", author := authorA, now := t }

/-- Witness for C5 on two concrete calls. -/
theorem createVersion_parent_chain_witness :
    ((applyCreateVersions docA [cvCall "1.0.0" "t1", cvCall "1.1.0" "t2"]).versions.get
        ⟨1, by decide⟩).parent_version
      = some (((applyCreateVersions docA [cvCall "1.0.0" "t1", cvCall "1.1.0" "t2"]).versions.get
          ⟨0, by decide⟩).version) :=
  (createVersion_parent_chain docA rfl [cvCall "1.0.0" "t1", cvCall "1.1.0" "t2"]).2 0 (by decide)

/-! ## C7 — restoreVersion restores the first snapshot's content -/

/-- C7: after `createVersion("1.0.0", …)`, a content change, and
`createVersion("1.1.0", …)`, calling `restoreVersion("1.0.0")` succeeds,
replaces the current content with the content held at the moment of the
first `createVersion` call (not the `1.1.0` content), and does not mutate
the version list. -/
theorem restoreVersion_restores_first_snapshot (d0 : MDXDocument) (c2 m1 m2 t1 t2 : String)
    (a1 a2 : Author) (ch1 ch2 : Option VersionChanges)
    (h : ∀ v ∈ d0.versions, v.version ≠ "1.0.0") :
    (((((d0.createVersion "1.0.0" m1 a1 ch1 t1).setContent c2).createVersion
        "1.1.0" m2 a2 ch2 t2).restoreVersion "1.0.0").1.content = d0.content)
    ∧ (((((d0.createVersion "1.0.0" m1 a1 ch1 t1).setContent c2).createVersion
        "1.1.0" m2 a2 ch2 t2).restoreVersion "1.0.0").1.versions
        = (((d0.createVersion "1.0.0" m1 a1 ch1 t1).setContent c2).createVersion
            "1.1.0" m2 a2 ch2 t2).versions)
    ∧ ((((d0.createVersion "1.0.0" m1 a1 ch1 t1).setContent c2).createVersion
        "1.1.0" m2 a2 ch2 t2).restoreVersion "1.0.0").2 = true := by
  have hnone : (d0.versions.find? (fun v => v.version == "1.0.0")) = none := by
    rw [List.find?_eq_none]
    intro x hx
    simp only [beq_iff_eq]
    exact h x hx
  have hfind : (((d0.createVersion "1.0.0" m1 a1 ch1 t1).setContent c2).createVersion
      "1.1.0" m2 a2 ch2 t2).versions.find? (fun v => v.version == "1.0.0")
      = some { version := "1.0.0", timestamp := t1, author := a1, message := m1,
               snapshot := some { type := .full, path := "history/snapshots/v1.0.0.md" },
               parent_version := (d0.versions.getLast?).map (fun v => v.version),
               changes := ch1 } := by
    show ((d0.versions ++ [_]) ++ [_]).find? _ = _
    rw [List.find?_append, List.find?_append, hnone]
    simp [List.find?]
  have hgvc : ((((d0.createVersion "1.0.0" m1 a1 ch1 t1).setContent c2).createVersion
      "1.1.0" m2 a2 ch2 t2).getVersionContent "1.0.0") = some d0.content := by
    unfold MDXDocument.getVersionContent
    rw [hfind]
    show (if ("history/snapshots/v1.0.0.md" : String).isEmpty then none
        else MDXDocument.getAssetAsString _ "history/snapshots/v1.0.0.md") = some d0.content
    rw [if_neg (by decide)]
    unfold MDXDocument.getAssetAsString
    show (jsMapGet (jsMapSet (jsMapSet d0.assets "history/snapshots/v1.0.0.md"
        (utf8Encode d0.content.data)) "history/snapshots/v1.1.0.md" (utf8Encode c2.data))
        "history/snapshots/v1.0.0.md").map
        (fun b => ((⟨utf8Decode b⟩ : String))) = some d0.content
    rw [jsMapGet_set_ne _ _ _ _ (by decide), jsMapGet_set_self]
    show some ((⟨utf8Decode (utf8Encode d0.content.data)⟩ : String)) = some d0.content
    rw [utf8Decode_encode]
  unfold MDXDocument.restoreVersion
  rw [hgvc]
  exact ⟨rfl, rfl, rfl⟩

/-- Witness for C7 at a concrete document. -/
theorem restoreVersion_restores_first_snapshot_witness :
    ((((docA.createVersion "1.0.0" "m" authorA none "t1").setContent "changed").createVersion
        "1.1.0" "m" authorA none "t2").restoreVersion "1.0.0").1.content = docA.content :=
  (restoreVersion_restores_first_snapshot docA "changed" "m" "m" "t1" "t2" authorA authorA
    none none (by decide)).1

/-! ## C1 — save/open round trip -/

theorem jsMapGet_cons_pos {α : Type} (k : String) (v : α) (rest : List (String × α)) (q : String)
    (h : k = q) : jsMapGet ((k, v) :: rest) q = some v := by
  unfold jsMapGet
  rw [List.find?_cons_of_pos _ (by simp [h])]
  rfl

theorem jsMapGet_cons_neg {α : Type} (k : String) (v : α) (rest : List (String × α)) (q : String)
    (h : k ≠ q) : jsMapGet ((k, v) :: rest) q = jsMapGet rest q := by
  unfold jsMapGet
  rw [List.find?_cons_of_neg _ (by simp [h])]

theorem jsMapGet_eq_none_of {α : Type} (m : List (String × α)) (q : String)
    (h : ∀ e ∈ m, e.1 ≠ q) : jsMapGet m q = none := by
  unfold jsMapGet
  rw [List.find?_eq_none.mpr (fun x hx => by simp [h x hx])]
  rfl

theorem jsMapGet_append {α : Type} (l1 l2 : List (String × α)) (q : String) :
    jsMapGet (l1 ++ l2) q = (jsMapGet l1 q).or (jsMapGet l2 q) := by
  unfold jsMapGet
  rw [List.find?_append]
  cases l1.find? (fun e => e.1 == q) <;> simp

theorem jsMapHas_false_of {α : Type} (m : List (String × α)) (q : String)
    (h : ∀ e ∈ m, e.1 ≠ q) : jsMapHas m q = false := by
  unfold jsMapHas
  rw [List.find?_eq_none.mpr (fun x hx => by simp [h x hx])]
  rfl

theorem jsMapSet_append_of_not_has {α : Type} (m : List (String × α)) (k : String) (v : α)
    (h : jsMapHas m k = false) : jsMapSet m k v = m ++ [(k, v)] := by
  induction m with
  | nil => rfl
  | cons e rest ih =>
      unfold jsMapHas at h ih
      rw [jsMapSet]
      by_cases he : e.1 = k
      · rw [List.find?_cons_of_pos _ (by simp [he])] at h
        exact absurd h (by simp)
      · rw [List.find?_cons_of_neg _ (by simp [he])] at h
        rw [if_neg (by simp [he]), ih h, List.cons_append]

theorem jsMapSet_append_of_not_has2 {α : Type} (m : List (String × α)) (k : String)
    (h : jsMapHas m k = false) (v : α) : jsMapSet m k v = m ++ [(k, v)] :=
  jsMapSet_append_of_not_has m k v h

theorem foldl_jsMapSet_bin (l : List (String × List Nat)) (z : List (String × ZipData))
    (hdisj : ∀ e ∈ l, jsMapHas z e.1 = false) (hnod : (l.map Prod.fst).Nodup) :
    l.foldl (fun z pb => jsMapSet z pb.1 (ZipData.bin pb.2)) z
      = z ++ l.map (fun pb => (pb.1, ZipData.bin pb.2)) := by
  induction l generalizing z with
  | nil => simp
  | cons e rest ih =>
      rw [List.foldl_cons,
        jsMapSet_append_of_not_has _ _ _ (hdisj e (List.mem_cons_self e rest))]
      have hnotin : e.1 ∉ rest.map Prod.fst := (List.nodup_cons.mp hnod).1
      rw [ih _ ?hd (List.nodup_cons.mp hnod).2]
      · rw [List.append_assoc]
        rfl
      case hd =>
        intro r hr
        apply jsMapHas_false_of
        intro x hx
        rcases List.mem_append.mp hx with hx1 | hx2
        · have hzr := hdisj r (List.mem_cons.mpr (Or.inr hr))
          unfold jsMapHas at hzr
          have hnone : z.find? (fun e => e.1 == r.1) = none := by
            cases hzf : z.find? (fun e => e.1 == r.1) with
            | none => rfl
            | some w => rw [hzf] at hzr; exact absurd hzr (by simp)
          have hx1b := List.find?_eq_none.mp hnone x hx1
          simp at hx1b
          exact hx1b
        · simp at hx2
          rw [hx2]
          intro hh
          exact hnotin (hh ▸ List.mem_map_of_mem Prod.fst hr)

theorem saveEntries_shape (d : MDXDocument) (cc : ContentConfig) (ep : String)
    (hcont : d.manifest.content = some cc) (hepc : cc.entry_point = some ep)
    (hep1 : ep ≠ "manifest.json")
    (hep2 : ep ≠ "history/versions.json")
    (hep3 : ep ≠ "annotations/annotations.json")
    (hkeys : ∀ e ∈ d.assets, e.1 ≠ "manifest.json" ∧ e.1 ≠ ep
        ∧ e.1 ≠ "history/versions.json" ∧ e.1 ≠ "annotations/annotations.json")
    (hnod : (d.assets.map Prod.fst).Nodup) :
    saveEntries d
      = ("manifest.json", ZipData.manifestJson d.manifest) :: (ep, ZipData.text d.content)
        :: (d.assets.map (fun pb => (pb.1, ZipData.bin pb.2))
          ++ (if d.versions.isEmpty then [] else
              [("history/versions.json", ZipData.versionsJson
                { schema_version := "1.0.0", current_version := d.manifest.versionGet,
                  versions := d.versions })])
          ++ (if d.annotations.isEmpty then [] else
              [("annotations/annotations.json", ZipData.annotsJson
                { schema_version := "1.0.0",
                  atContext := some "http://www.w3.org/ns/anno.jsonld",
                  annotations := d.annotations })])) := by
  have hz1 : jsMapSet (jsMapSet [] "manifest.json" (ZipData.manifestJson d.manifest)) ep
      (ZipData.text d.content)
      = [("manifest.json", ZipData.manifestJson d.manifest), (ep, ZipData.text d.content)] := by
    rw [show jsMapSet [] "manifest.json" (ZipData.manifestJson d.manifest)
        = [("manifest.json", ZipData.manifestJson d.manifest)] from rfl]
    rw [jsMapSet_append_of_not_has _ _ _
      (jsMapHas_false_of _ _ (by intro x hx; simp at hx; rw [hx]; exact Ne.symm hep1))]
    rfl
  have hz2 : (d.assets.foldl (fun z pb => jsMapSet z pb.1 (ZipData.bin pb.2))
      [("manifest.json", ZipData.manifestJson d.manifest), (ep, ZipData.text d.content)])
      = ("manifest.json", ZipData.manifestJson d.manifest) :: (ep, ZipData.text d.content)
        :: d.assets.map (fun pb => (pb.1, ZipData.bin pb.2)) := by
    rw [foldl_jsMapSet_bin _ _ ?hd hnod]
    · rfl
    case hd =>
      intro e he
      apply jsMapHas_false_of
      intro x hx
      simp at hx
      rcases hx with hx | hx
      · rw [hx]
        exact Ne.symm (hkeys e he).1
      · rw [hx]
        exact Ne.symm (hkeys e he).2.1
  have hmemz2 : ∀ x ∈ (("manifest.json", ZipData.manifestJson d.manifest)
      :: (ep, ZipData.text d.content)
      :: d.assets.map (fun pb => (pb.1, ZipData.bin pb.2))),
      x.1 = "manifest.json" ∨ x.1 = ep ∨ x.1 ∈ d.assets.map Prod.fst := by
    intro x hx
    rcases List.mem_cons.mp hx with h | hx2
    · exact Or.inl (by rw [h])
    rcases List.mem_cons.mp hx2 with h | hx3
    · exact Or.inr (Or.inl (by rw [h]))
    · obtain ⟨a, ha, hax⟩ := List.mem_map.mp hx3
      refine Or.inr (Or.inr ?_)
      rw [← hax]
      exact List.mem_map_of_mem Prod.fst ha
  have hkeysv : ∀ x ∈ (("manifest.json", ZipData.manifestJson d.manifest)
      :: (ep, ZipData.text d.content)
      :: d.assets.map (fun pb => (pb.1, ZipData.bin pb.2))),
      x.1 ≠ "history/versions.json" := by
    intro x hx
    rcases hmemz2 x hx with h | h | h
    · rw [h]
      show ("manifest.json" : String) ≠ "history/versions.json"
      decide
    · rw [h]; exact hep2
    · obtain ⟨a, ha, hax⟩ := List.mem_map.mp h
      exact hax ▸ (hkeys a ha).2.2.1
  have hkeysa : ∀ x ∈ (("manifest.json", ZipData.manifestJson d.manifest)
      :: (ep, ZipData.text d.content)
      :: d.assets.map (fun pb => (pb.1, ZipData.bin pb.2))),
      x.1 ≠ "annotations/annotations.json" := by
    intro x hx
    rcases hmemz2 x hx with h | h | h
    · rw [h]
      show ("manifest.json" : String) ≠ "annotations/annotations.json"
      decide
    · rw [h]; exact hep3
    · obtain ⟨a, ha, hax⟩ := List.mem_map.mp h
      exact hax ▸ (hkeys a ha).2.2.2
  unfold saveEntries
  simp only [hcont, hepc, Option.getD_some]
  rw [hz1, hz2]
  cases hv : d.versions.isEmpty with
  | true =>
      cases ha : d.annotations.isEmpty with
      | true => simp
      | false =>
          simp [jsMapSet_append_of_not_has2 _ _ (jsMapHas_false_of _ _ hkeysa)]
  | false =>
      cases ha : d.annotations.isEmpty with
      | true =>
          simp [jsMapSet_append_of_not_has2 _ _ (jsMapHas_false_of _ _ hkeysv)]
      | false =>
          have hna : jsMapHas
              (("manifest.json", ZipData.manifestJson d.manifest)
                :: (ep, ZipData.text d.content)
                :: (d.assets.map (fun pb => (pb.1, ZipData.bin pb.2))
                  ++ [("history/versions.json", ZipData.versionsJson
                      { schema_version := "1.0.0", current_version := d.manifest.versionGet,
                        versions := d.versions })]))
              "annotations/annotations.json" = false := by
            apply jsMapHas_false_of
            intro x hx
            rcases List.mem_cons.mp hx with h | hx2
            · rw [h]
              show ("manifest.json" : String) ≠ "annotations/annotations.json"
              decide
            rcases List.mem_cons.mp hx2 with h | hx3
            · rw [h]; exact hep3
            rcases List.mem_append.mp hx3 with h | h
            · obtain ⟨a, ha, hax⟩ := List.mem_map.mp h
              exact hax ▸ (hkeys a ha).2.2.2
            · simp at h
              rw [h]
              show ("history/versions.json" : String) ≠ "annotations/annotations.json"
              decide
          simp [jsMapSet_append_of_not_has2 _ _ (jsMapHas_false_of _ _ hkeysv),
            jsMapSet_append_of_not_has2 _ _ hna]

theorem jsMapGet_append_left {α : Type} (l1 l2 : List (String × α)) (p : String)
    (h : jsMapHas l1 p = true) : jsMapGet (l1 ++ l2) p = jsMapGet l1 p := by
  rw [jsMapGet_append]
  unfold jsMapHas at h
  cases hf : l1.find? (fun e => e.1 == p) with
  | none => rw [hf] at h; exact absurd h (by simp)
  | some w =>
      unfold jsMapGet
      rw [hf]
      rfl

/-- C1 (amended): for any well-formed in-memory document (valid manifest,
declared entry point distinct from the reserved archive names, asset keys
distinct from the reserved names and duplicate-free — all true of documents
built through the API), `save()` succeeds and `open()` of the saved archive
yields a document with the same manifest (hence title), the same content
string, the same version and annotation lists, and byte-for-byte identical
payloads for every stored asset key; the reopened asset store additionally
contains a `history/versions.json` (resp. `annotations/annotations.json`)
entry exactly when the version (resp. annotation) list is non-empty, so the
asset stores are equal only when both lists are empty. -/
theorem save_open_roundtrip (d : MDXDocument) (cc : ContentConfig) (ep : String)
    (hcont : d.manifest.content = some cc) (hepc : cc.entry_point = some ep)
    (hvalid : d.manifest.validate = [])
    (hep1 : ep ≠ "manifest.json")
    (hep2 : ep ≠ "history/versions.json")
    (hep3 : ep ≠ "annotations/annotations.json")
    (hkeys : ∀ e ∈ d.assets, e.1 ≠ "manifest.json" ∧ e.1 ≠ ep
        ∧ e.1 ≠ "history/versions.json" ∧ e.1 ≠ "annotations/annotations.json")
    (hnod : (d.assets.map Prod.fst).Nodup) :
    d.save = Except.ok (saveEntries d)
    ∧ ∃ d2, openDoc (saveEntries d) = Except.ok d2
      ∧ d2.manifest = d.manifest
      ∧ d2.content = d.content
      ∧ d2.versions = d.versions
      ∧ d2.annotations = d.annotations
      ∧ d2.assets.map Prod.fst = d.assets.map Prod.fst
          ++ (if d.versions.isEmpty then [] else ["history/versions.json"])
          ++ (if d.annotations.isEmpty then [] else ["annotations/annotations.json"])
      ∧ (∀ p, jsMapHas d.assets p = true → jsMapGet d2.assets p = jsMapGet d.assets p) := by
  constructor
  · unfold MDXDocument.save
    rw [hvalid]
    rfl
  rw [saveEntries_shape d cc ep hcont hepc hep1 hep2 hep3 hkeys hnod]
  have hAfilter : ∀ e ∈ d.assets.map (fun pb => (pb.1, ZipData.bin pb.2)),
      (e.1 != "manifest.json" && e.1 != ep) = true := by
    intro e he
    obtain ⟨a, ha, hae⟩ := List.mem_map.mp he
    rw [← hae]
    simp only [Bool.and_eq_true, bne_iff_ne]
    exact ⟨(hkeys a ha).1, (hkeys a ha).2.1⟩
  have hAget : ∀ q, q ≠ "manifest.json" → q ≠ ep
      → (∀ e ∈ d.assets, e.1 ≠ q)
      → jsMapGet (d.assets.map (fun pb => (pb.1, ZipData.bin pb.2))) q = none := by
    intro q _ _ hq
    apply jsMapGet_eq_none_of
    intro x hx
    obtain ⟨a, ha, hax⟩ := List.mem_map.mp hx
    rw [← hax]
    exact hq a ha
  have hAbytes : (d.assets.map (fun pb => (pb.1, ZipData.bin pb.2))).map
      (fun e => (e.1, e.2.asyncBytes)) = d.assets := by
    rw [List.map_map]
    rw [show ((fun e : String × ZipData => (e.1, e.2.asyncBytes))
        ∘ (fun pb : String × List Nat => (pb.1, ZipData.bin pb.2))) = id from rfl]
    exact List.map_id _
  have hfa : ((fun e : String × ZipData => e.1 != "manifest.json" && e.1 != ep)
      ("manifest.json", ZipData.manifestJson d.manifest)) = false := by
    simp
  have hfb : ((fun e : String × ZipData => e.1 != "manifest.json" && e.1 != ep)
      (ep, ZipData.text d.content)) = false := by
    simp
  cases hv : d.versions.isEmpty with
  | true =>
      have hvnil : d.versions = [] := List.isEmpty_iff.mp hv
      cases ha : d.annotations.isEmpty with
      | true =>
          have hanil : d.annotations = [] := List.isEmpty_iff.mp ha
          simp only [if_true, List.append_nil]
          have hassets : (((("manifest.json", ZipData.manifestJson d.manifest)
              :: (ep, ZipData.text d.content)
              :: d.assets.map (fun pb => (pb.1, ZipData.bin pb.2)))).filter
              (fun e => e.1 != "manifest.json" && e.1 != ep)).map
              (fun e => (e.1, e.2.asyncBytes)) = d.assets := by
            rw [List.filter_cons, if_neg (by simp [hfa]), List.filter_cons,
              if_neg (by simp [hfb]), List.filter_eq_self.mpr hAfilter, hAbytes]
          have hopen : openDoc (("manifest.json", ZipData.manifestJson d.manifest)
              :: (ep, ZipData.text d.content)
              :: d.assets.map (fun pb => (pb.1, ZipData.bin pb.2)))
              = Except.ok { manifest := d.manifest, content := d.content,
                            assets := d.assets, versions := [],
                            annotations := [] } := by
            unfold openDoc
            rw [jsMapGet_cons_pos _ _ _ _ rfl]
            simp only [parseManifestJson, hcont, hepc]
            rw [jsMapGet_cons_neg _ _ _ _ (Ne.symm hep1), jsMapGet_cons_pos _ _ _ _ rfl]
            rw [jsMapGet_cons_neg _ _ _ _ (by decide), jsMapGet_cons_neg _ _ _ _ hep2,
              hAget "history/versions.json" (by decide) (Ne.symm hep2)
                (fun e he => (hkeys e he).2.2.1)]
            rw [jsMapGet_cons_neg _ _ _ _ (by decide), jsMapGet_cons_neg _ _ _ _ hep3,
              hAget "annotations/annotations.json" (by decide) (Ne.symm hep3)
                (fun e he => (hkeys e he).2.2.2)]
            rw [hassets]
            rfl
          refine ⟨_, hopen, rfl, rfl, hvnil.symm, hanil.symm, by simp, ?_⟩
          intro p _
          rfl
      | false =>
          have hfn : ((fun e : String × ZipData => e.1 != "manifest.json" && e.1 != ep)
              ("annotations/annotations.json", ZipData.annotsJson
                { schema_version := "1.0.0",
                  atContext := some "http://www.w3.org/ns/anno.jsonld",
                  annotations := d.annotations })) = true := by
            simp only [Bool.and_eq_true, bne_iff_ne]
            exact ⟨by decide, Ne.symm hep3⟩
          simp only [if_true, if_false, List.append_nil]
          have hassets : (((("manifest.json", ZipData.manifestJson d.manifest)
              :: (ep, ZipData.text d.content)
              :: (d.assets.map (fun pb => (pb.1, ZipData.bin pb.2))
                ++ [("annotations/annotations.json", ZipData.annotsJson
                  { schema_version := "1.0.0",
                    atContext := some "http://www.w3.org/ns/anno.jsonld",
                    annotations := d.annotations })]))).filter
              (fun e => e.1 != "manifest.json" && e.1 != ep)).map
              (fun e => (e.1, e.2.asyncBytes))
              = d.assets ++ [("annotations/annotations.json", ([] : List Nat))] := by
            rw [List.filter_cons, if_neg (by simp [hfa]), List.filter_cons,
              if_neg (by simp [hfb]), List.filter_append,
              List.filter_eq_self.mpr hAfilter,
              List.filter_eq_self.mpr (by intro e he; simp at he; rw [he]; exact hfn),
              List.map_append, hAbytes]
            rfl
          have hopen : openDoc (("manifest.json", ZipData.manifestJson d.manifest)
              :: (ep, ZipData.text d.content)
              :: (d.assets.map (fun pb => (pb.1, ZipData.bin pb.2))
                ++ [("annotations/annotations.json", ZipData.annotsJson
                  { schema_version := "1.0.0",
                    atContext := some "http://www.w3.org/ns/anno.jsonld",
                    annotations := d.annotations })]))
              = Except.ok { manifest := d.manifest, content := d.content,
                            assets := d.assets
                              ++ [("annotations/annotations.json", ([] : List Nat))],
                            versions := [], annotations := d.annotations } := by
            unfold openDoc
            rw [jsMapGet_cons_pos _ _ _ _ rfl]
            simp only [parseManifestJson, hcont, hepc]
            rw [jsMapGet_cons_neg _ _ _ _ (Ne.symm hep1), jsMapGet_cons_pos _ _ _ _ rfl]
            rw [jsMapGet_cons_neg _ _ _ _ (by decide), jsMapGet_cons_neg _ _ _ _ hep2,
              jsMapGet_append,
              hAget "history/versions.json" (by decide) (Ne.symm hep2)
                (fun e he => (hkeys e he).2.2.1)]
            rw [jsMapGet_eq_none_of
              [("annotations/annotations.json", ZipData.annotsJson
                { schema_version := "1.0.0",
                  atContext := some "http://www.w3.org/ns/anno.jsonld",
                  annotations := d.annotations })] "history/versions.json"
              (by intro x hx; simp at hx; rw [hx]
                  show ("annotations/annotations.json" : String) ≠ "history/versions.json"
                  decide)]
            rw [jsMapGet_cons_neg _ _ _ _ (by decide), jsMapGet_cons_neg _ _ _ _ hep3,
              jsMapGet_append,
              hAget "annotations/annotations.json" (by decide) (Ne.symm hep3)
                (fun e he => (hkeys e he).2.2.2)]
            rw [jsMapGet_cons_pos _ _ _ _ rfl]
            rw [hassets]
            rfl
          refine ⟨_, hopen, rfl, rfl, hvnil.symm, rfl, by simp, ?_⟩
          intro p hp
          exact jsMapGet_append_left _ _ _ hp
  | false =>
      have hfv : ((fun e : String × ZipData => e.1 != "manifest.json" && e.1 != ep)
          ("history/versions.json", ZipData.versionsJson
            { schema_version := "1.0.0", current_version := d.manifest.versionGet,
              versions := d.versions })) = true := by
        simp only [Bool.and_eq_true, bne_iff_ne]
        exact ⟨by decide, Ne.symm hep2⟩
      cases ha : d.annotations.isEmpty with
      | true =>
          have hanil : d.annotations = [] := List.isEmpty_iff.mp ha
          simp only [if_true, if_false, List.append_nil]
          have hassets : (((("manifest.json", ZipData.manifestJson d.manifest)
              :: (ep, ZipData.text d.content)
              :: (d.assets.map (fun pb => (pb.1, ZipData.bin pb.2))
                ++ [("history/versions.json", ZipData.versionsJson
                  { schema_version := "1.0.0", current_version := d.manifest.versionGet,
                    versions := d.versions })]))).filter
              (fun e => e.1 != "manifest.json" && e.1 != ep)).map
              (fun e => (e.1, e.2.asyncBytes))
              = d.assets ++ [("history/versions.json", ([] : List Nat))] := by
            rw [List.filter_cons, if_neg (by simp [hfa]), List.filter_cons,
              if_neg (by simp [hfb]), List.filter_append,
              List.filter_eq_self.mpr hAfilter,
              List.filter_eq_self.mpr (by intro e he; simp at he; rw [he]; exact hfv),
              List.map_append, hAbytes]
            rfl
          have hopen : openDoc (("manifest.json", ZipData.manifestJson d.manifest)
              :: (ep, ZipData.text d.content)
              :: (d.assets.map (fun pb => (pb.1, ZipData.bin pb.2))
                ++ [("history/versions.json", ZipData.versionsJson
                  { schema_version := "1.0.0", current_version := d.manifest.versionGet,
                    versions := d.versions })]))
              = Except.ok { manifest := d.manifest, content := d.content,
                            assets := d.assets
                              ++ [("history/versions.json", ([] : List Nat))],
                            versions := d.versions, annotations := [] } := by
            unfold openDoc
            rw [jsMapGet_cons_pos _ _ _ _ rfl]
            simp only [parseManifestJson, hcont, hepc]
            rw [jsMapGet_cons_neg _ _ _ _ (Ne.symm hep1), jsMapGet_cons_pos _ _ _ _ rfl]
            rw [jsMapGet_cons_neg _ _ _ _ (by decide), jsMapGet_cons_neg _ _ _ _ hep2,
              jsMapGet_append,
              hAget "history/versions.json" (by decide) (Ne.symm hep2)
                (fun e he => (hkeys e he).2.2.1)]
            rw [jsMapGet_cons_pos _ _ _ _ rfl]
            rw [jsMapGet_cons_neg _ _ _ _ (by decide), jsMapGet_cons_neg _ _ _ _ hep3,
              jsMapGet_append,
              hAget "annotations/annotations.json" (by decide) (Ne.symm hep3)
                (fun e he => (hkeys e he).2.2.2)]
            rw [jsMapGet_eq_none_of
              [("history/versions.json", ZipData.versionsJson
                { schema_version := "1.0.0", current_version := d.manifest.versionGet,
                  versions := d.versions })] "annotations/annotations.json"
              (by intro x hx; simp at hx; rw [hx]
                  show ("history/versions.json" : String) ≠ "annotations/annotations.json"
                  decide)]
            rw [hassets]
            rfl
          refine ⟨_, hopen, rfl, rfl, rfl, hanil.symm, by simp, ?_⟩
          intro p hp
          exact jsMapGet_append_left _ _ _ hp
      | false =>
          have hfn : ((fun e : String × ZipData => e.1 != "manifest.json" && e.1 != ep)
              ("annotations/annotations.json", ZipData.annotsJson
                { schema_version := "1.0.0",
                  atContext := some "http://www.w3.org/ns/anno.jsonld",
                  annotations := d.annotations })) = true := by
            simp only [Bool.and_eq_true, bne_iff_ne]
            exact ⟨by decide, Ne.symm hep3⟩
          simp only [Bool.false_eq_true, if_false]
          have hassets : (((("manifest.json", ZipData.manifestJson d.manifest)
              :: (ep, ZipData.text d.content)
              :: (d.assets.map (fun pb => (pb.1, ZipData.bin pb.2))
                ++ [("history/versions.json", ZipData.versionsJson
                  { schema_version := "1.0.0", current_version := d.manifest.versionGet,
                    versions := d.versions })]
                ++ [("annotations/annotations.json", ZipData.annotsJson
                  { schema_version := "1.0.0",
                    atContext := some "http://www.w3.org/ns/anno.jsonld",
                    annotations := d.annotations })]))).filter
              (fun e => e.1 != "manifest.json" && e.1 != ep)).map
              (fun e => (e.1, e.2.asyncBytes))
              = d.assets ++ [("history/versions.json", ([] : List Nat))]
                ++ [("annotations/annotations.json", ([] : List Nat))] := by
            rw [List.filter_cons, if_neg (by simp [hfa]), List.filter_cons,
              if_neg (by simp [hfb]), List.filter_append, List.filter_append,
              List.filter_eq_self.mpr hAfilter,
              List.filter_eq_self.mpr (by intro e he; simp at he; rw [he]; exact hfv),
              List.filter_eq_self.mpr (by intro e he; simp at he; rw [he]; exact hfn),
              List.map_append, List.map_append, hAbytes]
            rfl
          have hopen : openDoc (("manifest.json", ZipData.manifestJson d.manifest)
              :: (ep, ZipData.text d.content)
              :: (d.assets.map (fun pb => (pb.1, ZipData.bin pb.2))
                ++ [("history/versions.json", ZipData.versionsJson
                  { schema_version := "1.0.0", current_version := d.manifest.versionGet,
                    versions := d.versions })]
                ++ [("annotations/annotations.json", ZipData.annotsJson
                  { schema_version := "1.0.0",
                    atContext := some "http://www.w3.org/ns/anno.jsonld",
                    annotations := d.annotations })]))
              = Except.ok { manifest := d.manifest, content := d.content,
                            assets := d.assets
                              ++ [("history/versions.json", ([] : List Nat))]
                              ++ [("annotations/annotations.json", ([] : List Nat))],
                            versions := d.versions,
                            annotations := d.annotations } := by
            unfold openDoc
            rw [jsMapGet_cons_pos _ _ _ _ rfl]
            simp only [parseManifestJson, hcont, hepc]
            rw [jsMapGet_cons_neg _ _ _ _ (Ne.symm hep1), jsMapGet_cons_pos _ _ _ _ rfl]
            rw [jsMapGet_cons_neg _ _ _ _ (by decide), jsMapGet_cons_neg _ _ _ _ hep2,
              jsMapGet_append, jsMapGet_append,
              hAget "history/versions.json" (by decide) (Ne.symm hep2)
                (fun e he => (hkeys e he).2.2.1)]
            rw [jsMapGet_eq_none_of
              [("annotations/annotations.json", ZipData.annotsJson
                { schema_version := "1.0.0",
                  atContext := some "http://www.w3.org/ns/anno.jsonld",
                  annotations := d.annotations })] "history/versions.json"
              (by intro x hx; simp at hx; rw [hx]
                  show ("annotations/annotations.json" : String) ≠ "history/versions.json"
                  decide)]
            rw [jsMapGet_cons_pos _ _ _ _ rfl]
            rw [jsMapGet_cons_neg _ _ _ _ (by decide), jsMapGet_cons_neg _ _ _ _ hep3,
              jsMapGet_append, jsMapGet_append,
              hAget "annotations/annotations.json" (by decide) (Ne.symm hep3)
                (fun e he => (hkeys e he).2.2.2)]
            rw [jsMapGet_eq_none_of
              [("history/versions.json", ZipData.versionsJson
                { schema_version := "1.0.0", current_version := d.manifest.versionGet,
                  versions := d.versions })] "annotations/annotations.json"
              (by intro x hx; simp at hx; rw [hx]
                  show ("history/versions.json" : String) ≠ "annotations/annotations.json"
                  decide)]
            rw [jsMapGet_cons_pos _ _ _ _ rfl]
            rw [hassets]
            rfl
          refine ⟨_, hopen, rfl, rfl, rfl, rfl, by simp, ?_⟩
          intro p hp
          rw [List.append_assoc]
          exact jsMapGet_append_left _ _ _ hp

/-- Witness for C1's amended theorem: a freshly created document saves
successfully. -/
theorem save_open_roundtrip_witness :
    docA.save = Except.ok (saveEntries docA) :=
  (save_open_roundtrip docA _ "document.md" rfl rfl rfl (by decide) (by decide) (by decide)
    (by intro e he; exact absurd he (by simp [docA, MDXDocument.create]))
    (by simp [docA, MDXDocument.create])).1

/-- A created document carrying one version snapshot. -/
def docC1 : MDXDocument :=
  (MDXDocument.create "T" {} "id-7" "t0").createVersion "1.0.0" "m" authorA none "t1"

/-- C1 counterexample: for a document with one version, `save()` then
`open()` does **not** return an equal document — the reopened asset store
has an extra `history/versions.json` entry (the side-file is swept up by
the open()-time asset loop), so the asset stores differ. -/
theorem save_open_roundtrip_counterexample :
    ∃ entries d2, docC1.save = Except.ok entries ∧ openDoc entries = Except.ok d2
      ∧ jsMapGet d2.assets "history/versions.json" ≠ none
      ∧ jsMapGet docC1.assets "history/versions.json" = none
      ∧ d2.assets ≠ docC1.assets := by
  refine ⟨_, _, rfl, rfl, by decide, by decide, by decide⟩
